import Mathlib

/-!
Verification of the status-go HD-key keystore patch
(`_assets/patches/geth/0000-accounts-hd-keys.patch`).

The patch extends go-ethereum's `accounts/keystore` with:
  * a `Key` record carrying an extended derivation root and a sub-account index,
  * `newKeyFromExtendedKey` (master vs non-master BIP44 derivation),
  * `EncryptExtendedKey` / `decryptExtendedKey` (scrypt + AES-CTR + Keccak MAC),
  * versioned `EncryptKey` / `DecryptKey` with legacy (version "1") support,
  * keystore operations `ImportExtendedKey`, `IncSubAccountIndex`, `Update`,
  * `zeroKey` with a nil guard.

Byte strings are modelled as `List Nat`.  External cryptographic primitives
(scrypt, Keccak-256, the AES block cipher) are not part of the repository; they
are modelled as concrete, deterministic functions that are injective in their
inputs (an idealisation of a collision-free hash / KDF), which is exactly the
property the keystore relies on.  Hex encoding/decoding used on the wire is a
bijection between byte strings and strings and is modelled as the identity on
byte strings.
-/

namespace StatusKeystore

/-- Byte strings (each entry is one byte; the model does not bound entries). -/
abbrev Bytes := List Nat

/-- Injective encoding of a byte string into a single natural number,
built from `Nat.pair`.  Used by the idealised primitives below. -/
def encodeBytes : Bytes → Nat
  | [] => 0
  | b :: rest => Nat.pair b (encodeBytes rest) + 1

/-- Inverse of `encodeBytes`. -/
def decodeBytes : Nat → Bytes
  | 0 => []
  | n + 1 => (Nat.unpair n).1 :: decodeBytes (Nat.unpair n).2
termination_by n => n
decreasing_by
  exact Nat.lt_succ_of_le (Nat.unpair_right_le n)

theorem decodeBytes_encodeBytes (l : Bytes) : decodeBytes (encodeBytes l) = l := by
  induction l with
  | nil => simp [encodeBytes, decodeBytes]
  | cons b rest ih =>
      rw [encodeBytes, decodeBytes, Nat.unpair_pair]
      exact congrArg (b :: ·) ih

theorem encodeBytes_injective : Function.Injective encodeBytes := by
  intro a b h
  have := congrArg decodeBytes h
  rwa [decodeBytes_encodeBytes, decodeBytes_encodeBytes] at this

/-- The `l[a:b]` Go slicing on byte strings (defined whenever `b ≤ l.length`,
which holds at every use site in the keystore). -/
def listSlice (l : Bytes) (a b : Nat) : Bytes := (l.take b).drop a

/-- Modelled from the spec: the memory-hard password KDF (`scrypt.Key`), which
derives `dkLen` bytes from passphrase, salt and the cost parameters `n`, `r`,
`p`.  Idealised: the entry at offset 16 is an injective mix of all inputs, so
the MAC half `derivedKey[16:32]` determines passphrase, salt and parameters
(collision-freeness); the remaining entries are zero. -/
def kdfMix (auth salt : Bytes) (n r p : Nat) : Nat :=
  Nat.pair (encodeBytes auth) (Nat.pair (encodeBytes salt) (Nat.pair n (Nat.pair r p)))

/-- Modelled from the spec: `scrypt.Key(auth, salt, n, r, p, dkLen)`. -/
def scryptKey (auth salt : Bytes) (n r p dkLen : Nat) : Bytes :=
  (List.replicate 16 0 ++ kdfMix auth salt n r p :: List.replicate 112 0).take dkLen

theorem scryptKey_take_32 (auth salt : Bytes) (n r p : Nat) :
    scryptKey auth salt n r p 32 =
      List.replicate 16 0 ++ kdfMix auth salt n r p :: List.replicate 15 0 := rfl

theorem scryptKey_32_length (auth salt : Bytes) (n r p : Nat) :
    (scryptKey auth salt n r p 32).length = 32 := rfl

theorem scryptKey_32_slice (auth salt : Bytes) (n r p : Nat) :
    listSlice (scryptKey auth salt n r p 32) 16 32 =
      kdfMix auth salt n r p :: List.replicate 15 0 := rfl

theorem kdfMix_inj_auth {a a' s : Bytes} {n r p : Nat}
    (h : kdfMix a s n r p = kdfMix a' s n r p) : a = a' := by
  have h1 := (Nat.pair_eq_pair.mp h).1
  exact encodeBytes_injective h1

/-- Modelled from the spec: the Keccak-256 hash (`crypto.Keccak256`), variadic
over byte strings (the arguments are concatenated).  Idealised as an injective
function of the argument list (a collision-free hash). -/
def Keccak256 (data : List Bytes) : Bytes :=
  [encodeBytes (data.map encodeBytes)]

theorem Keccak256_injective : Function.Injective Keccak256 := by
  intro a b h
  have h1 : encodeBytes (a.map encodeBytes) = encodeBytes (b.map encodeBytes) := by
    have := congrArg (fun l : Bytes => l.headD 0) h
    simpa [Keccak256] using this
  have h2 := encodeBytes_injective h1
  exact List.map_injective_iff.mpr encodeBytes_injective h2

/-- Modelled from the spec: the AES-CTR keystream as a fixed deterministic
function of the cipher key, the IV and the byte position (the model of
`cipher.NewCTR(aesBlock, iv)`). -/
def aesKeystream (key iv : Bytes) (i : Nat) : Nat :=
  Nat.pair (Nat.pair (encodeBytes key) (encodeBytes iv)) i % 256

/-- XOR a byte string against a keystream starting at position `i`. -/
def ctrXorAux (ks : Nat → Nat) : Nat → Bytes → Bytes
  | _, [] => []
  | i, b :: rest => (b ^^^ ks i) :: ctrXorAux ks (i + 1) rest

theorem ctrXorAux_length (ks : Nat → Nat) (i : Nat) (l : Bytes) :
    (ctrXorAux ks i l).length = l.length := by
  induction l generalizing i with
  | nil => rfl
  | cons b rest ih => simp [ctrXorAux, ih]

theorem ctrXorAux_involutive (ks : Nat → Nat) (i : Nat) (l : Bytes) :
    ctrXorAux ks i (ctrXorAux ks i l) = l := by
  induction l generalizing i with
  | nil => rfl
  | cons b rest ih =>
      simp only [ctrXorAux, ih]
      rw [Nat.xor_assoc, Nat.xor_self, Nat.xor_zero]

/-- Decidable equality for `Except`, used to evaluate keystore results on
concrete inputs. -/
instance {e a : Type} [DecidableEq e] [DecidableEq a] : DecidableEq (Except e a) := fun x y =>
  match x, y with
  | .ok u, .ok v =>
      if h : u = v then isTrue (congrArg Except.ok h)
      else isFalse (fun hc => h (Except.ok.inj hc))
  | .ok _, .error _ => isFalse (fun hc => Except.noConfusion hc)
  | .error _, .ok _ => isFalse (fun hc => Except.noConfusion hc)
  | .error u, .error v =>
      if h : u = v then isTrue (congrArg Except.error h)
      else isFalse (fun hc => h (Except.error.inj hc))

/-- Errors of the keystore (each constructor stands for one Go error value or
error format string). -/
inductive KSErr where
  /-- The `ErrDecrypt`: "could not decrypt key with given passphrase" (the
  AuthenticationError of the spec). -/
  | errDecrypt
  /-- Error "Version not supported: %v" (an UnsupportedFormatError). -/
  | versionNotSupported (v : Nat)
  /-- Error "Cipher not supported: %v" (an UnsupportedFormatError). -/
  | cipherNotSupported (c : String)
  /-- Error "Unsupported KDF: %s" (an UnsupportedFormatError). -/
  | kdfNotSupported (k : String)
  /-- The `aes.NewCipher`: invalid key size. -/
  | invalidKeySize
  /-- The `extkeys.NewKeyFromString`: malformed serialized extended key. -/
  | invalidExtendedKeyString
  /-- The `accounts.ErrNoMatch`: no key for the given account in the cache. -/
  | noKey
  /-- storage collaborator failure (file missing / IO error). -/
  | storageError
  /-- The `getKey`: "key content mismatch: have account %x, want %x". -/
  | addressMismatch
  /-- dereference of a nil private key (a Go panic, modelled as an error). -/
  | nilPrivateKey
  /-- The `extkeys` derivation failure (DerivationError of the spec). -/
  | derivationError
  deriving DecidableEq, Repr

/-- The UnsupportedFormatError class of the spec: unknown cipher / KDF /
version identifiers. -/
def KSErr.isUnsupportedFormat : KSErr → Bool
  | .versionNotSupported _ => true
  | .cipherNotSupported _ => true
  | .kdfNotSupported _ => true
  | _ => false

/-- The `aesCTRXOR(key, inText, iv)` from `keystore_passphrase.go`: CTR-mode
stream-cipher XOR.  `aes.NewCipher` accepts key sizes 16/24/32; the keystream
itself is the modelled primitive `aesKeystream`. -/
def aesCTRXOR (key inText iv : Bytes) : Except KSErr Bytes :=
  if key.length = 16 ∨ key.length = 24 ∨ key.length = 32 then
    .ok (ctrXorAux (aesKeystream key iv) 0 inText)
  else .error .invalidKeySize

theorem aesCTRXOR_roundtrip {key ct iv pt : Bytes}
    (h : aesCTRXOR key pt iv = .ok ct) : aesCTRXOR key ct iv = .ok pt := by
  unfold aesCTRXOR at h ⊢
  by_cases hk : key.length = 16 ∨ key.length = 24 ∨ key.length = 32
  · simp only [hk, if_pos] at h ⊢
    cases h
    exact congrArg Except.ok (ctrXorAux_involutive _ 0 pt)
  · simp [hk] at h

/-! ## Extended keys (`status-im/status-go/extkeys`, modelled from the spec)

The `extkeys` package is part of this repository but is not under `src/`; only
its callers are.  It is modelled from the spec: an extended key is "a BIP32
node (private/public key bytes, chain code, depth, parent fingerprint, child
index)", it "serializes to/from a canonical string" with
`parse(serialize(k)) == k`, and "a distinguished 'empty' sentinel value
represents 'no key present'", denoted by a fixed sentinel string. -/

/-- Modelled from the spec: a BIP32 extended-key node. -/
structure ExtendedKey where
  keyB : Bytes
  chainCode : Bytes
  depth : Nat
  parentFingerprint : Bytes
  childNumber : Nat
  deriving DecidableEq, Repr

/-- Modelled from the spec: the zeroed "empty" sentinel extended key
(`&extkeys.ExtendedKey{}`). -/
def ExtendedKey.empty : ExtendedKey := ⟨[], [], 0, [], 0⟩

/-- Modelled from the spec: the fixed sentinel string denoting "no key"
(`extkeys.EmptyExtendedKeyString`), as a byte string. -/
def EmptyExtendedKeyString : Bytes := [90, 75]

/-- Modelled from the spec: canonical serialization of an extended key
(`ExtendedKey.String()`).  The empty sentinel serializes to the fixed sentinel
string; any other key serializes to an injective (base58-like) encoding of its
fields, tagged so that it never collides with the sentinel.  Serialized keys
are never the empty string. -/
def ExtendedKey.string (k : ExtendedKey) : Bytes :=
  if k = ExtendedKey.empty then EmptyExtendedKeyString
  else [1, Nat.pair (Nat.pair (encodeBytes k.keyB) (encodeBytes k.chainCode))
          (Nat.pair (Nat.pair k.depth (encodeBytes k.parentFingerprint)) k.childNumber)]

/-- Modelled from the spec: `extkeys.NewKeyFromString`, the inverse of
`ExtendedKey.String()`.  The sentinel string parses to the empty sentinel key;
a well-formed serialized key parses back to its fields; anything else is an
error. -/
def NewKeyFromString (s : Bytes) : Except KSErr ExtendedKey :=
  if s = EmptyExtendedKeyString then .ok ExtendedKey.empty
  else match s with
    | [1, n] =>
        let p1 := Nat.unpair n
        let p2 := Nat.unpair p1.1
        let p3 := Nat.unpair p1.2
        let p4 := Nat.unpair p3.1
        .ok ⟨decodeBytes p2.1, decodeBytes p2.2, p4.1, decodeBytes p4.2, p3.2⟩
    | _ => .error .invalidExtendedKeyString

theorem ExtendedKey.string_ne_nil (k : ExtendedKey) : k.string ≠ [] := by
  unfold ExtendedKey.string
  by_cases h : k = ExtendedKey.empty <;> simp [h, EmptyExtendedKeyString]

/-- The `parse(serialize(k)) == k`: the invariant stated by the spec. -/
theorem NewKeyFromString_string (k : ExtendedKey) :
    NewKeyFromString k.string = .ok k := by
  by_cases h : k = ExtendedKey.empty
  · simp [ExtendedKey.string, NewKeyFromString, h]
  · have hs : k.string
        = [1, Nat.pair (Nat.pair (encodeBytes k.keyB) (encodeBytes k.chainCode))
             (Nat.pair (Nat.pair k.depth (encodeBytes k.parentFingerprint)) k.childNumber)] := by
      simp [ExtendedKey.string, h]
    have hne : k.string ≠ EmptyExtendedKeyString := by
      rw [hs]
      intro hc
      have := congrArg (fun l : Bytes => l.headD 0) hc
      simp [EmptyExtendedKeyString] at this
    rw [hs]
    rw [hs] at hne
    unfold NewKeyFromString
    rw [if_neg hne]
    simp only [Nat.unpair_pair, decodeBytes_encodeBytes]

/-- Modelled from the spec: hardened BIP44 start offset (0x80000000). -/
def HardenedKeyStart : Nat := 2147483648

/-- The `extkeys.CoinTypeETH`, the fixed coin-type constant. -/
def CoinTypeETH : Nat := 60

/-- Modelled from the spec: one hardened child-derivation step.  The child's
key material is an injective mix of the parent material and the child index,
its depth is the parent's depth plus one, and its child index is recorded. -/
def childKey (k : ExtendedKey) (i : Nat) : ExtendedKey :=
  { keyB := [Nat.pair (encodeBytes k.keyB) (Nat.pair (encodeBytes k.chainCode) i)]
    chainCode := [Nat.pair (Nat.pair (encodeBytes k.chainCode) (encodeBytes k.keyB)) i]
    depth := k.depth + 1
    parentFingerprint := [encodeBytes k.keyB % 4294967296]
    childNumber := i }

/-- Modelled from the spec: `ExtendedKey.BIP44Child(coinType, i)` performs
"hardened BIP44 child derivation under a fixed coin-type constant at child
index `i`" (path purpose' / coinType' / i').  Failures of the underlying
elliptic-curve step (invalid intermediate point) are not representable in
this model, so the derivation always succeeds. -/
def ExtendedKey.BIP44Child (k : ExtendedKey) (coinType i : Nat) :
    Except KSErr ExtendedKey :=
  .ok (childKey (childKey (childKey k (HardenedKeyStart + 44))
        (HardenedKeyStart + coinType)) (HardenedKeyStart + i))

theorem BIP44Child_ne (k : ExtendedKey) (coinType i j : Nat) (hij : i ≠ j)
    {ci cj : ExtendedKey}
    (hi : k.BIP44Child coinType i = .ok ci) (hj : k.BIP44Child coinType j = .ok cj) :
    ci ≠ cj := by
  cases hi
  cases hj
  intro h
  have := congrArg ExtendedKey.childNumber h
  simp only [childKey] at this
  exact hij (Nat.add_left_cancel this)

/-- Modelled from the spec: `ExtendedKey.ToECDSA()` extracts the private
scalar of the node. -/
def ExtendedKey.ToECDSA (k : ExtendedKey) : Bytes := k.keyB

/-- Modelled from the spec: `crypto.ToECDSAUnsafe` turns key bytes into the
private scalar (the identity on the modelled byte strings). -/
def ToECDSAUnsafe (b : Bytes) : Bytes := b

/-- Modelled from the spec: the secp256k1 public key of a private scalar
(`PrivateKey.PublicKey`), as an injective function of the scalar. -/
def publicKeyOf (priv : Bytes) : Bytes := [Nat.pair 1 (encodeBytes priv)]

/-- Modelled from the spec: `crypto.PubkeyToAddress`, the Keccak-based account
address of a public key, as an injective function of the public key. -/
def PubkeyToAddress (pub : Bytes) : Bytes := [Nat.pair 2 (encodeBytes pub)]

/-! ## On-disk record shapes (`key.go` / `keystore_passphrase.go`)

Hex-encoded wire fields are modelled directly as byte strings (hex encoding
is a bijection; `len(hexString) == 0` iff the underlying byte string is
empty).  The `kdfparams` map always holds the scrypt parameter shape written
by this keystore. -/

/-- The `cipherparamsJSON`. -/
structure cipherparamsJSON where
  iv : Bytes
  deriving DecidableEq, Repr

/-- The `cryptoJSON`: one encrypted blob (cipher and KDF identifiers, ciphertext,
IV, KDF parameters, MAC). -/
structure cryptoJSON where
  cipher : String
  cipherText : Bytes
  cipherParams : cipherparamsJSON
  kdf : String
  kdfN : Nat
  kdfR : Nat
  kdfP : Nat
  kdfDKLen : Nat
  salt : Bytes
  mac : Bytes
  deriving DecidableEq, Repr

/-- The `cryptoJSON{}`: the zero value, used as the empty blob sentinel. -/
def emptyCryptoJSON : cryptoJSON :=
  { cipher := "", cipherText := [], cipherParams := ⟨[]⟩, kdf := ""
    kdfN := 0, kdfR := 0, kdfP := 0, kdfDKLen := 0, salt := [], mac := [] }

/-- The `encryptedKeyJSONV3`: the current persisted record shape. -/
structure encryptedKeyJSONV3 where
  address : Bytes
  crypto : cryptoJSON
  id : Nat
  version : Nat
  extendedKey : cryptoJSON
  subAccountIndex : Nat
  deriving DecidableEq, Repr

/-- The `encryptedKeyJSONV1`: the legacy persisted record shape (no
`extendedkey`, no `subaccountindex`; its `version` field is the string "1"). -/
structure encryptedKeyJSONV1 where
  address : Bytes
  crypto : cryptoJSON
  id : Nat
  version : String
  deriving DecidableEq, Repr

/-- A persisted record as seen by `DecryptKey`'s loosely-typed version
dispatch: the generic top-level parse routes records whose `version` is the
JSON string "1" to the legacy decoder and everything else to the V3 decoder. -/
inductive KeyJSON where
  | v1 (r : encryptedKeyJSONV1)
  | v3 (r : encryptedKeyJSONV3)
  deriving DecidableEq, Repr

/-- The `version` constant of `keystore_passphrase.go` (current record version). -/
def version : Nat := 3

/-- The `scryptR` constant. -/
def scryptR : Nat := 8

/-- The `scryptDKLen` constant. -/
def scryptDKLen : Nat := 32

/-- The in-memory `Key` record of `key.go`.  `PrivateKey` and `ExtendedKey`
are Go pointers and may be nil, hence `Option`. -/
structure Key where
  id : Nat
  address : Bytes
  privateKey : Option Bytes
  extendedKey : Option ExtendedKey
  subAccountIndex : Nat
  deriving DecidableEq, Repr

/-! ## The authenticated-encryption engine (patch, `keystore_passphrase.go`) -/

/-- The `EncryptExtendedKey(extKey, auth, scryptN, scryptP)` (patch lines
198-237).  The salt and IV are drawn from a CSPRNG by the caller's
environment; they are passed explicitly here.  Returns `cryptoJSON{}` (the
empty blob) for a nil extended key. -/
def EncryptExtendedKey (extKey : Option ExtendedKey) (auth : Bytes)
    (scryptN scryptP : Nat) (salt iv : Bytes) : Except KSErr cryptoJSON :=
  match extKey with
  | none => .ok emptyCryptoJSON
  | some k =>
      let authArray := auth
      let derivedKey := scryptKey authArray salt scryptN scryptR scryptP scryptDKLen
      let encryptKey := derivedKey.take 16
      let keyBytes := k.string
      match aesCTRXOR encryptKey keyBytes iv with
      | .error e => .error e
      | .ok cipherText =>
          let mac := Keccak256 [listSlice derivedKey 16 32, cipherText]
          .ok { cipher := "aes-128-ctr", cipherText := cipherText
                cipherParams := ⟨iv⟩, kdf := "scrypt"
                kdfN := scryptN, kdfR := scryptR, kdfP := scryptP
                kdfDKLen := scryptDKLen, salt := salt, mac := mac }

/-- The `getKDFKey(cryptoJSON, auth)` (`keystore_passphrase.go`): recompute the
derived key from the blob's stored salt and cost parameters.  Records written
by this keystore always use the scrypt KDF; an unknown KDF identifier is an
UnsupportedFormatError ("Unsupported KDF"), as upstream.  (Upstream also
accepts "pbkdf2", which no record written by this code uses; that branch is
not modelled.) -/
def getKDFKey (c : cryptoJSON) (auth : Bytes) : Except KSErr Bytes :=
  if c.kdf = "scrypt" then
    .ok (scryptKey auth c.salt c.kdfN c.kdfR c.kdfP c.kdfDKLen)
  else .error (.kdfNotSupported c.kdf)

/-- The `decryptExtendedKey(keyProtected, auth)` (patch lines 305-348): empty
ciphertext short-circuits to the sentinel string; then the record version and
the cipher identifier are checked; then the KDF key is recomputed, the MAC is
recomputed from `derivedKey[16:32]` and the ciphertext and compared against
the stored MAC (`ErrDecrypt` on mismatch); finally the ciphertext is
decrypted with AES-CTR. -/
def decryptExtendedKey (keyProtected : encryptedKeyJSONV3) (auth : Bytes) :
    Except KSErr Bytes :=
  if keyProtected.extendedKey.cipherText.length = 0 then
    .ok EmptyExtendedKeyString
  else if keyProtected.version ≠ version then
    .error (.versionNotSupported keyProtected.version)
  else if keyProtected.extendedKey.cipher ≠ "aes-128-ctr" then
    .error (.cipherNotSupported keyProtected.extendedKey.cipher)
  else
    let mac := keyProtected.extendedKey.mac
    let iv := keyProtected.extendedKey.cipherParams.iv
    let cipherText := keyProtected.extendedKey.cipherText
    match getKDFKey keyProtected.extendedKey auth with
    | .error e => .error e
    | .ok derivedKey =>
        let calculatedMAC := Keccak256 [listSlice derivedKey 16 32, cipherText]
        if calculatedMAC ≠ mac then .error .errDecrypt
        else aesCTRXOR (derivedKey.take 16) cipherText iv

/-- The per-record fresh randomness drawn by `EncryptKey`: a salt and IV for
the primary-key blob and an independently drawn salt and IV for the
extended-key blob. -/
structure EncEntropy where
  salt1 : Bytes
  iv1 : Bytes
  salt2 : Bytes
  iv2 : Bytes
  deriving DecidableEq, Repr

/-- Modelled from the spec: `math.PaddedBigBytes(D, 32)`, the canonical byte
encoding of the private scalar — the identity on the modelled scalar bytes. -/
def PaddedBigBytes (b : Bytes) : Bytes := b

/-- The `EncryptKey(key, auth, scryptN, scryptP)` (patch lines 179-196 plus the
upstream body it extends): encrypt the primary key under a freshly drawn salt
and IV, then encrypt the extended key with `EncryptExtendedKey` under an
independently drawn salt and IV, and assemble the V3 record.  A nil
`PrivateKey` would dereference nil in Go; modelled as an error. -/
def EncryptKey (key : Key) (auth : Bytes) (scryptN scryptP : Nat)
    (e : EncEntropy) : Except KSErr encryptedKeyJSONV3 :=
  match key.privateKey with
  | none => .error .nilPrivateKey
  | some priv =>
      let authArray := auth
      let derivedKey := scryptKey authArray e.salt1 scryptN scryptR scryptP scryptDKLen
      let encryptKey := derivedKey.take 16
      let keyBytes := PaddedBigBytes priv
      match aesCTRXOR encryptKey keyBytes e.iv1 with
      | .error er => .error er
      | .ok cipherText =>
          let mac := Keccak256 [listSlice derivedKey 16 32, cipherText]
          let cryptoStruct : cryptoJSON :=
            { cipher := "aes-128-ctr", cipherText := cipherText
              cipherParams := ⟨e.iv1⟩, kdf := "scrypt"
              kdfN := scryptN, kdfR := scryptR, kdfP := scryptP
              kdfDKLen := scryptDKLen, salt := e.salt1, mac := mac }
          match EncryptExtendedKey key.extendedKey auth scryptN scryptP e.salt2 e.iv2 with
          | .error er => .error er
          | .ok encryptedExtendedKey =>
              .ok { address := key.address, crypto := cryptoStruct
                    id := key.id, version := version
                    extendedKey := encryptedExtendedKey
                    subAccountIndex := key.subAccountIndex }

/-- The `decryptKeyV3(keyProtected, auth)` (upstream `keystore_passphrase.go`,
the "existing path" of the spec): version and cipher checks, KDF-key
recomputation, MAC verification (`ErrDecrypt` on mismatch), AES-CTR
decryption; returns the plaintext key bytes and the record id. -/
def decryptKeyV3 (keyProtected : encryptedKeyJSONV3) (auth : Bytes) :
    Except KSErr (Bytes × Nat) :=
  if keyProtected.version ≠ version then
    .error (.versionNotSupported keyProtected.version)
  else if keyProtected.crypto.cipher ≠ "aes-128-ctr" then
    .error (.cipherNotSupported keyProtected.crypto.cipher)
  else
    let keyId := keyProtected.id
    let mac := keyProtected.crypto.mac
    let iv := keyProtected.crypto.cipherParams.iv
    let cipherText := keyProtected.crypto.cipherText
    match getKDFKey keyProtected.crypto auth with
    | .error e => .error e
    | .ok derivedKey =>
        let calculatedMAC := Keccak256 [listSlice derivedKey 16 32, cipherText]
        if calculatedMAC ≠ mac then .error .errDecrypt
        else
          match aesCTRXOR (derivedKey.take 16) cipherText iv with
          | .error e => .error e
          | .ok plainText => .ok (plainText, keyId)

/-- Modelled from the spec: `aesCBCDecrypt`, the legacy CBC decryption used
only by version-"1" records.  Only its determinism matters to the claims; it
is modelled as a total keystream XOR. -/
def aesCBCDecrypt (key cipherText iv : Bytes) : Bytes :=
  ctrXorAux (aesKeystream key iv) 0 cipherText

/-- The `decryptKeyV1(keyProtected, auth)` (upstream `keystore_passphrase.go`):
KDF-key recomputation, MAC verification (`ErrDecrypt` on mismatch), CBC
decryption under `Keccak256(derivedKey[:16])[:16]`. -/
def decryptKeyV1 (keyProtected : encryptedKeyJSONV1) (auth : Bytes) :
    Except KSErr (Bytes × Nat) :=
  let keyId := keyProtected.id
  let mac := keyProtected.crypto.mac
  let iv := keyProtected.crypto.cipherParams.iv
  let cipherText := keyProtected.crypto.cipherText
  match getKDFKey keyProtected.crypto auth with
  | .error e => .error e
  | .ok derivedKey =>
      let calculatedMAC := Keccak256 [listSlice derivedKey 16 32, cipherText]
      if calculatedMAC ≠ mac then .error .errDecrypt
      else
        let plainText := aesCBCDecrypt (listSlice (Keccak256 [derivedKey.take 16]) 0 16) cipherText iv
        .ok (plainText, keyId)

/-- The `DecryptKey(keyjson, auth)` (patch lines 239-299).  The generic top-level
parse reads `subaccountindex` (absent on the legacy shape, hence 0) and the
version discriminant; version-"1" records are decrypted with `decryptKeyV1`
and their extended key is synthesized by parsing the empty sentinel string;
otherwise the record is decrypted with `decryptKeyV3` followed by
`decryptExtendedKey` and the decrypted extended-key string is parsed.  The
address is recomputed from the decrypted private key, and the sub-account
index goes through Go's `uint32` conversion. -/
def DecryptKey (keyjson : KeyJSON) (auth : Bytes) : Except KSErr Key :=
  match keyjson with
  | .v1 k =>
      match decryptKeyV1 k auth with
      | .error e => .error e
      | .ok (keyBytes, keyId) =>
          match NewKeyFromString EmptyExtendedKeyString with
          | .error e => .error e
          | .ok extKey =>
              let key := ToECDSAUnsafe keyBytes
              .ok { id := keyId
                    address := PubkeyToAddress (publicKeyOf key)
                    privateKey := some key
                    extendedKey := some extKey
                    subAccountIndex := 0 }
  | .v3 k =>
      let subAccountIndex := k.subAccountIndex
      match decryptKeyV3 k auth with
      | .error e => .error e
      | .ok (keyBytes, keyId) =>
          match decryptExtendedKey k auth with
          | .error e => .error e
          | .ok extKeyBytes =>
              match NewKeyFromString extKeyBytes with
              | .error e => .error e
              | .ok extKey =>
                  let key := ToECDSAUnsafe keyBytes
                  .ok { id := keyId
                        address := PubkeyToAddress (publicKeyOf key)
                        privateKey := some key
                        extendedKey := some extKey
                        subAccountIndex := subAccountIndex % 4294967296 }

/-! ## Key derivation (`key.go`, patch lines 45-77) -/

/-- The `newKeyFromExtendedKey(extKey)` (patch lines 45-77): for a depth-0 master
key, derive CKD#1 (the main account, BIP44 child 0) and CKD#2 (the
sub-accounts root, BIP44 child 1); for a non-master key use the key itself
for both.  The fresh random uuid is passed explicitly as `id`. -/
def newKeyFromExtendedKey (extKey : ExtendedKey) (id : Nat) : Except KSErr Key :=
  if extKey.depth = 0 then
    match extKey.BIP44Child CoinTypeETH 0 with
    | .error err => .error err
    | .ok extChild1 =>
        match extKey.BIP44Child CoinTypeETH 1 with
        | .error err => .error err
        | .ok extChild2 =>
            let privateKeyECDSA := extChild1.ToECDSA
            .ok { id := id
                  address := PubkeyToAddress (publicKeyOf privateKeyECDSA)
                  privateKey := some privateKeyECDSA
                  extendedKey := some extChild2
                  subAccountIndex := 0 }
  else
    let extChild1 := extKey
    let extChild2 := extKey
    let privateKeyECDSA := extChild1.ToECDSA
    .ok { id := id
          address := PubkeyToAddress (publicKeyOf privateKeyECDSA)
          privateKey := some privateKeyECDSA
          extendedKey := some extChild2
          subAccountIndex := 0 }

/-- The `zeroKey(k)` (patch lines 159-166): zero a private key's scalar bytes in
memory; a nil key is a no-op (the patch adds the nil guard).  Modelled as the
resulting buffer contents. -/
def zeroKey (k : Option Bytes) : Option Bytes :=
  match k with
  | none => none
  | some b => some (List.replicate b.length 0)

/-! ## The keystore service (`keystore.go`)

The storage collaborator and the address cache are modelled as explicit
state: a path-keyed file map and a list of cached accounts.  `maybeReload`
rescans the key directory; its effect is external nondeterminism and is
passed as the post-reload cache value.  In a sequential execution with no
external directory changes the reloaded cache equals the current one. -/

/-- The `accounts.Account`: an address plus the URL path of its key file. -/
structure Account where
  address : Bytes
  path : Bytes
  deriving DecidableEq, Repr

/-- Modelled from the spec: `keyFileName(addr)` — the storage path is keyed
by the account address. -/
def keyFileName (addr : Bytes) : Bytes := addr

/-- The keystore's mutable state: the address cache and the path-keyed
persisted records of the storage collaborator. -/
structure KSState where
  cache : List Account
  files : List (Bytes × KeyJSON)
  deriving DecidableEq, Repr

/-- Look a persisted record up by path. -/
def lookupFile : List (Bytes × KeyJSON) → Bytes → Option KeyJSON
  | [], _ => none
  | (p, r) :: rest, path => if p = path then some r else lookupFile rest path

/-- Replace (or create) the persisted record at a path — the atomic replace
performed by `storage.StoreKey`. -/
def setFile : List (Bytes × KeyJSON) → Bytes → KeyJSON → List (Bytes × KeyJSON)
  | [], path, r => [(path, r)]
  | (p, r') :: rest, path, r =>
      if p = path then (p, r) :: rest else (p, r') :: setFile rest path r

/-- The `ks.cache.hasAddress(addr)`. -/
def hasAddress (cache : List Account) (addr : Bytes) : Bool :=
  cache.any (fun x => x.address = addr)

/-- The `ks.cache.find(a)`: locate the unique cached account with the given
address (`accounts.ErrNoMatch` when there is none). -/
def cacheFind (cache : List Account) (addr : Bytes) : Except KSErr Account :=
  match cache.find? (fun x => x.address = addr) with
  | some a => .ok a
  | none => .error .noKey

/-- The `storage.StoreKey(path, key, auth)`: encrypt the record with `EncryptKey`
and atomically replace the file at `path`. -/
def StoreKey (st : KSState) (path : Bytes) (key : Key) (auth : Bytes)
    (scryptN scryptP : Nat) (e : EncEntropy) : Except KSErr KSState :=
  match EncryptKey key auth scryptN scryptP e with
  | .error er => .error er
  | .ok r => .ok { st with files := setFile st.files path (.v3 r) }

/-- The `ks.getKey(addr, path, auth)`: read the key file, decrypt it, and check
that the decrypted key's address matches the requested one. -/
def getKey (st : KSState) (addr path : Bytes) (auth : Bytes) : Except KSErr Key :=
  match lookupFile st.files path with
  | none => .error .storageError
  | some r =>
      match DecryptKey r auth with
      | .error e => .error e
      | .ok key => if key.address = addr then .ok key else .error .addressMismatch

/-- The `ks.getDecryptedKey(a, auth)`: resolve the account in the cache, then
read and decrypt its key file. -/
def getDecryptedKey (st : KSState) (a : Account) (auth : Bytes) :
    Except KSErr (Account × Key) :=
  match cacheFind st.cache a.address with
  | .error e => .error e
  | .ok a' =>
      match getKey st a'.address a'.path auth with
      | .error e => .error e
      | .ok key => .ok (a', key)

/-- The outcome of a keystore operation: its result, the state after it, and
the final contents of the decrypted/derived private-key buffer it
materialized (`none` when no such buffer was materialized; `some` holds the
buffer's bytes at return, after any `zeroKey` call the operation made). -/
structure OpResult (α : Type) where
  res : Except KSErr α
  st : KSState
  keyTrace : Option Bytes
  deriving Repr

/-- The `ks.IncSubAccountIndex(a, passphrase)` (patch lines 145-152): decrypt the
persisted record, increment `SubAccountIndex` (a Go `uint32`, hence mod
2^32), and re-persist the full record under the same passphrase.  The
function never calls `zeroKey`. -/
def IncSubAccountIndex (st : KSState) (a : Account) (auth : Bytes)
    (scryptN scryptP : Nat) (e : EncEntropy) : OpResult Unit :=
  match getDecryptedKey st a auth with
  | .error er => ⟨.error er, st, none⟩
  | .ok (a', key) =>
      let key' := { key with subAccountIndex := (key.subAccountIndex + 1) % 4294967296 }
      match StoreKey st a'.path key' auth scryptN scryptP e with
      | .error er => ⟨.error er, st, key'.privateKey⟩
      | .ok st' => ⟨.ok (), st', key'.privateKey⟩

/-- The `ks.Update(a, passphrase, newPassphrase)` (`keystore.go`): decrypt with
the old passphrase and re-persist under the new one.  The function never
calls `zeroKey`. -/
def Update (st : KSState) (a : Account) (auth newAuth : Bytes)
    (scryptN scryptP : Nat) (e : EncEntropy) : OpResult Unit :=
  match getDecryptedKey st a auth with
  | .error er => ⟨.error er, st, none⟩
  | .ok (a', key) =>
      match StoreKey st a'.path key newAuth scryptN scryptP e with
      | .error er => ⟨.error er, st, key.privateKey⟩
      | .ok st' => ⟨.ok (), st', key.privateKey⟩

/-- The `ks.importKey(key, passphrase)` (`keystore.go`): store the encrypted
record at the key's file path and register the account in the cache.  The
function never calls `zeroKey`. -/
def importKey (st : KSState) (key : Key) (auth : Bytes)
    (scryptN scryptP : Nat) (e : EncEntropy) : OpResult Account :=
  let a : Account := ⟨key.address, keyFileName key.address⟩
  match StoreKey st a.path key auth scryptN scryptP e with
  | .error er => ⟨.error er, st, key.privateKey⟩
  | .ok st' => ⟨.ok a, { st' with cache := st'.cache ++ [a] }, key.privateKey⟩

/-- The `ks.ImportExtendedKey(extKey, passphrase)` (patch lines 110-136): derive
a `Key` from the extended key; on derivation failure zero the (nil) private
key and fail.  If the address is already cached, reconcile the cache
(`maybeReload`, whose external rescan outcome is the `reloaded` parameter)
and return the cached account; on a cache-lookup failure zero the fresh
private key and propagate the error.  Otherwise import the new key. -/
def ImportExtendedKey (st : KSState) (reloaded : List Account)
    (extKey : ExtendedKey) (auth : Bytes) (id : Nat)
    (scryptN scryptP : Nat) (e : EncEntropy) : OpResult Account :=
  match newKeyFromExtendedKey extKey id with
  | .error er =>
      -- on error `newKeyFromExtendedKey` returns `&Key{}`, whose nil
      -- private key is zeroed (a no-op)
      ⟨.error er, st, zeroKey none⟩
  | .ok key =>
      if hasAddress st.cache key.address then
        let st' := { st with cache := reloaded }
        match cacheFind st'.cache key.address with
        | .error er => ⟨.error er, st', zeroKey key.privateKey⟩
        | .ok a => ⟨.ok a, st', key.privateKey⟩
      else importKey st key auth scryptN scryptP e

/-! ## Lemmas about the encryption engine -/

theorem scryptKey_32_take_16 (auth salt : Bytes) (n r p : Nat) :
    (scryptKey auth salt n r p 32).take 16 = List.replicate 16 0 := rfl

theorem aesCTRXOR_replicate16 (inText iv : Bytes) :
    aesCTRXOR (List.replicate 16 0) inText iv =
      .ok (ctrXorAux (aesKeystream (List.replicate 16 0) iv) 0 inText) := by
  simp [aesCTRXOR]

/-- The blob this keystore's encryption produces for plaintext `plain` under
passphrase `auth` with the given salt, IV and cost parameters, spelled out
(the derived key of the model has zero bytes in its cipher half and the
`kdfMix` at offset 16 of its MAC half). -/
def mkBlobWithMac (plain salt iv : Bytes) (n p : Nat) (macBytes : Bytes) : cryptoJSON :=
  { cipher := "aes-128-ctr"
    cipherText := ctrXorAux (aesKeystream (List.replicate 16 0) iv) 0 plain
    cipherParams := ⟨iv⟩
    kdf := "scrypt"
    kdfN := n, kdfR := scryptR, kdfP := p, kdfDKLen := scryptDKLen
    salt := salt
    mac := macBytes }

def mkBlob (plain auth salt iv : Bytes) (n p : Nat) : cryptoJSON :=
  mkBlobWithMac plain salt iv n p
    (Keccak256 [kdfMix auth salt n scryptR p :: List.replicate 15 0,
                ctrXorAux (aesKeystream (List.replicate 16 0) iv) 0 plain])

/-- The blob produced by `EncryptExtendedKey` for a non-nil key, spelled
out. -/
def mkExtBlob (k : ExtendedKey) (auth salt iv : Bytes) (n p : Nat) : cryptoJSON :=
  mkBlob k.string auth salt iv n p

theorem EncryptExtendedKey_some (k : ExtendedKey) (auth salt iv : Bytes) (n p : Nat) :
    EncryptExtendedKey (some k) auth n p salt iv = .ok (mkExtBlob k auth salt iv n p) := by
  show (match aesCTRXOR ((scryptKey auth salt n scryptR p scryptDKLen).take 16) k.string iv with
    | .error e => .error e
    | .ok cipherText =>
        .ok { cipher := "aes-128-ctr", cipherText := cipherText
              cipherParams := ⟨iv⟩, kdf := "scrypt"
              kdfN := n, kdfR := scryptR, kdfP := p
              kdfDKLen := scryptDKLen, salt := salt
              mac := Keccak256 [listSlice (scryptKey auth salt n scryptR p scryptDKLen) 16 32, cipherText] }
      : Except KSErr cryptoJSON) = .ok (mkExtBlob k auth salt iv n p)
  rw [show scryptDKLen = 32 from rfl, scryptKey_32_take_16, aesCTRXOR_replicate16,
    scryptKey_32_slice]
  rfl

theorem mkExtBlob_cipherText_ne_nil (k : ExtendedKey) (auth salt iv : Bytes) (n p : Nat) :
    (mkExtBlob k auth salt iv n p).cipherText.length ≠ 0 := by
  simp only [mkExtBlob, mkBlob, mkBlobWithMac, ctrXorAux_length]
  intro h
  exact ExtendedKey.string_ne_nil k (List.length_eq_zero.mp h)

theorem decryptExtendedKey_roundtrip (k : ExtendedKey) (auth salt iv : Bytes) (n p : Nat)
    (r : encryptedKeyJSONV3) (hver : r.version = 3)
    (hext : r.extendedKey = mkExtBlob k auth salt iv n p) :
    decryptExtendedKey r auth = .ok k.string := by
  unfold decryptExtendedKey
  rw [hext, hver, if_neg (mkExtBlob_cipherText_ne_nil k auth salt iv n p)]
  rw [if_neg (by simp [version])]
  rw [if_neg (by simp [mkExtBlob, mkBlob, mkBlobWithMac])]
  show (match getKDFKey (mkExtBlob k auth salt iv n p) auth with
    | Except.error e => Except.error e
    | Except.ok derivedKey =>
        if Keccak256 [listSlice derivedKey 16 32, (mkExtBlob k auth salt iv n p).cipherText]
            ≠ (mkExtBlob k auth salt iv n p).mac then .error KSErr.errDecrypt
        else aesCTRXOR (derivedKey.take 16) (mkExtBlob k auth salt iv n p).cipherText
          (mkExtBlob k auth salt iv n p).cipherParams.iv) = .ok k.string
  have hkdf : getKDFKey (mkExtBlob k auth salt iv n p) auth =
      .ok (scryptKey auth salt n scryptR p scryptDKLen) := by
    simp [getKDFKey, mkExtBlob, mkBlob, mkBlobWithMac]
  rw [hkdf]
  have hmac : Keccak256 [listSlice (scryptKey auth salt n scryptR p scryptDKLen) 16 32,
      (mkExtBlob k auth salt iv n p).cipherText] = (mkExtBlob k auth salt iv n p).mac := by
    rw [show scryptDKLen = 32 from rfl, scryptKey_32_slice]
    rfl
  show (if Keccak256 [listSlice (scryptKey auth salt n scryptR p scryptDKLen) 16 32,
        (mkExtBlob k auth salt iv n p).cipherText] ≠ (mkExtBlob k auth salt iv n p).mac
      then (Except.error KSErr.errDecrypt : Except KSErr Bytes)
      else aesCTRXOR ((scryptKey auth salt n scryptR p scryptDKLen).take 16)
        (mkExtBlob k auth salt iv n p).cipherText
        (mkExtBlob k auth salt iv n p).cipherParams.iv) = Except.ok k.string
  rw [if_neg (by simp [hmac])]
  rw [show scryptDKLen = 32 from rfl, scryptKey_32_take_16]
  show aesCTRXOR (List.replicate 16 0)
    (ctrXorAux (aesKeystream (List.replicate 16 0) iv) 0 k.string) iv = .ok k.string
  rw [aesCTRXOR_replicate16]
  exact congrArg Except.ok (ctrXorAux_involutive _ 0 k.string)

theorem decryptExtendedKey_wrong_pass (k : ExtendedKey) (auth auth' salt iv : Bytes)
    (n p : Nat) (r : encryptedKeyJSONV3) (hver : r.version = 3)
    (hext : r.extendedKey = mkExtBlob k auth salt iv n p)
    (hne : auth' ≠ auth) :
    decryptExtendedKey r auth' = .error .errDecrypt := by
  unfold decryptExtendedKey
  rw [hext, hver, if_neg (mkExtBlob_cipherText_ne_nil k auth salt iv n p)]
  rw [if_neg (by simp [version])]
  rw [if_neg (by simp [mkExtBlob, mkBlob, mkBlobWithMac])]
  show (match getKDFKey (mkExtBlob k auth salt iv n p) auth' with
    | Except.error e => Except.error e
    | Except.ok derivedKey =>
        if Keccak256 [listSlice derivedKey 16 32, (mkExtBlob k auth salt iv n p).cipherText]
            ≠ (mkExtBlob k auth salt iv n p).mac then .error KSErr.errDecrypt
        else aesCTRXOR (derivedKey.take 16) (mkExtBlob k auth salt iv n p).cipherText
          (mkExtBlob k auth salt iv n p).cipherParams.iv) = .error KSErr.errDecrypt
  have hkdf : getKDFKey (mkExtBlob k auth salt iv n p) auth' =
      .ok (scryptKey auth' salt n scryptR p scryptDKLen) := by
    simp [getKDFKey, mkExtBlob, mkBlob, mkBlobWithMac]
  rw [hkdf]
  have hmac : Keccak256 [listSlice (scryptKey auth' salt n scryptR p scryptDKLen) 16 32,
      (mkExtBlob k auth salt iv n p).cipherText] ≠ (mkExtBlob k auth salt iv n p).mac := by
    rw [show scryptDKLen = 32 from rfl, scryptKey_32_slice]
    show Keccak256 [kdfMix auth' salt n scryptR p :: List.replicate 15 0, _] ≠
      Keccak256 [kdfMix auth salt n scryptR p :: List.replicate 15 0, _]
    intro h
    have hl := Keccak256_injective h
    have hhead : kdfMix auth' salt n scryptR p = kdfMix auth salt n scryptR p := by
      have := congrArg (fun l : List Bytes => (l.headD []).headD 0) hl
      simpa using this
    exact hne (kdfMix_inj_auth hhead)
  show (if Keccak256 [listSlice (scryptKey auth' salt n scryptR p scryptDKLen) 16 32,
        (mkExtBlob k auth salt iv n p).cipherText] ≠ (mkExtBlob k auth salt iv n p).mac
      then (Except.error KSErr.errDecrypt : Except KSErr Bytes)
      else aesCTRXOR ((scryptKey auth' salt n scryptR p scryptDKLen).take 16)
        (mkExtBlob k auth salt iv n p).cipherText
        (mkExtBlob k auth salt iv n p).cipherParams.iv) = Except.error KSErr.errDecrypt
  rw [if_pos hmac]

theorem decryptKeyV3_roundtrip (priv auth salt iv : Bytes) (n p : Nat)
    (r : encryptedKeyJSONV3) (hver : r.version = 3)
    (hcr : r.crypto = mkBlob priv auth salt iv n p) :
    decryptKeyV3 r auth = .ok (priv, r.id) := by
  unfold decryptKeyV3
  rw [hver, hcr]
  rw [if_neg (by simp [version])]
  rw [if_neg (by simp [mkBlob, mkBlobWithMac])]
  have hkdf : getKDFKey (mkBlob priv auth salt iv n p) auth =
      .ok (scryptKey auth salt n scryptR p scryptDKLen) := by
    simp [getKDFKey, mkBlob, mkBlobWithMac]
  rw [hkdf]
  have hmac : Keccak256 [listSlice (scryptKey auth salt n scryptR p scryptDKLen) 16 32,
      (mkBlob priv auth salt iv n p).cipherText] = (mkBlob priv auth salt iv n p).mac := by
    rw [show scryptDKLen = 32 from rfl, scryptKey_32_slice]
    rfl
  show (if Keccak256 [listSlice (scryptKey auth salt n scryptR p scryptDKLen) 16 32,
        (mkBlob priv auth salt iv n p).cipherText] ≠ (mkBlob priv auth salt iv n p).mac
      then (Except.error KSErr.errDecrypt : Except KSErr (Bytes × Nat))
      else
        match aesCTRXOR ((scryptKey auth salt n scryptR p scryptDKLen).take 16)
            (mkBlob priv auth salt iv n p).cipherText
            (mkBlob priv auth salt iv n p).cipherParams.iv with
        | Except.error e => Except.error e
        | Except.ok plainText => Except.ok (plainText, r.id)) = Except.ok (priv, r.id)
  rw [if_neg (by simp [hmac])]
  rw [show scryptDKLen = 32 from rfl, scryptKey_32_take_16]
  show (match aesCTRXOR (List.replicate 16 0)
      (ctrXorAux (aesKeystream (List.replicate 16 0) iv) 0 priv) iv with
    | Except.error e => Except.error e
    | Except.ok plainText => (Except.ok (plainText, r.id) : Except KSErr (Bytes × Nat)))
      = Except.ok (priv, r.id)
  rw [aesCTRXOR_replicate16, ctrXorAux_involutive]

/-- The `EncryptKey` on a key with non-nil private and extended keys, spelled
out. -/
theorem EncryptKey_some (key : Key) (priv : Bytes) (ek : ExtendedKey)
    (auth : Bytes) (n p : Nat) (e : EncEntropy)
    (hpriv : key.privateKey = some priv) (hek : key.extendedKey = some ek) :
    EncryptKey key auth n p e = .ok
      { address := key.address
        crypto := mkBlob priv auth e.salt1 e.iv1 n p
        id := key.id
        version := 3
        extendedKey := mkExtBlob ek auth e.salt2 e.iv2 n p
        subAccountIndex := key.subAccountIndex } := by
  unfold EncryptKey
  rw [hpriv]
  show (match aesCTRXOR ((scryptKey auth e.salt1 n scryptR p scryptDKLen).take 16)
      (PaddedBigBytes priv) e.iv1 with
    | Except.error er => Except.error er
    | Except.ok cipherText =>
        match EncryptExtendedKey key.extendedKey auth n p e.salt2 e.iv2 with
        | Except.error er => Except.error er
        | Except.ok encryptedExtendedKey =>
            (Except.ok { address := key.address
                         crypto := { cipher := "aes-128-ctr", cipherText := cipherText
                                     cipherParams := ⟨e.iv1⟩, kdf := "scrypt"
                                     kdfN := n, kdfR := scryptR, kdfP := p
                                     kdfDKLen := scryptDKLen, salt := e.salt1
                                     mac := Keccak256 [listSlice (scryptKey auth e.salt1 n scryptR p scryptDKLen) 16 32, cipherText] }
                         id := key.id, version := version
                         extendedKey := encryptedExtendedKey
                         subAccountIndex := key.subAccountIndex } : Except KSErr encryptedKeyJSONV3))
      = Except.ok { address := key.address
                    crypto := mkBlob priv auth e.salt1 e.iv1 n p
                    id := key.id
                    version := 3
                    extendedKey := mkExtBlob ek auth e.salt2 e.iv2 n p
                    subAccountIndex := key.subAccountIndex }
  rw [show scryptDKLen = 32 from rfl, scryptKey_32_take_16, aesCTRXOR_replicate16,
    scryptKey_32_slice, hek, EncryptExtendedKey_some]
  rfl

/-- Definitional unfolding of `DecryptKey` on a legacy record. -/
theorem DecryptKey_v1_def (r : encryptedKeyJSONV1) (auth : Bytes) :
    DecryptKey (.v1 r) auth =
      match decryptKeyV1 r auth with
      | .error e => .error e
      | .ok (keyBytes, _keyId) =>
          match NewKeyFromString EmptyExtendedKeyString with
          | .error e => .error e
          | .ok extKey =>
              .ok { id := _keyId
                    address := PubkeyToAddress (publicKeyOf (ToECDSAUnsafe keyBytes))
                    privateKey := some (ToECDSAUnsafe keyBytes)
                    extendedKey := some extKey
                    subAccountIndex := 0 } := rfl

/-- Definitional unfolding of `DecryptKey` on a current record. -/
theorem DecryptKey_v3_def (r : encryptedKeyJSONV3) (auth : Bytes) :
    DecryptKey (.v3 r) auth =
      match decryptKeyV3 r auth with
      | .error e => .error e
      | .ok (keyBytes, _keyId) =>
          match decryptExtendedKey r auth with
          | .error e => .error e
          | .ok extKeyBytes =>
              match NewKeyFromString extKeyBytes with
              | .error e => .error e
              | .ok extKey =>
                  .ok { id := _keyId
                        address := PubkeyToAddress (publicKeyOf (ToECDSAUnsafe keyBytes))
                        privateKey := some (ToECDSAUnsafe keyBytes)
                        extendedKey := some extKey
                        subAccountIndex := r.subAccountIndex % 4294967296 } := rfl

/-- The `DecryptKey` on a current record whose three decryption steps succeed. -/
theorem DecryptKey_v3_ok (r : encryptedKeyJSONV3) (auth pt ekBytes : Bytes)
    (ek : ExtendedKey)
    (h1 : decryptKeyV3 r auth = .ok (pt, r.id))
    (h2 : decryptExtendedKey r auth = .ok ekBytes)
    (h3 : NewKeyFromString ekBytes = .ok ek) :
    DecryptKey (.v3 r) auth = .ok
      { id := r.id
        address := PubkeyToAddress (publicKeyOf (ToECDSAUnsafe pt))
        privateKey := some (ToECDSAUnsafe pt)
        extendedKey := some ek
        subAccountIndex := r.subAccountIndex % 4294967296 } := by
  rw [DecryptKey_v3_def, h1, h2]
  show (match NewKeyFromString ekBytes with
    | Except.error e => Except.error e
    | Except.ok extKey =>
        (Except.ok { id := r.id
                     address := PubkeyToAddress (publicKeyOf (ToECDSAUnsafe pt))
                     privateKey := some (ToECDSAUnsafe pt)
                     extendedKey := some extKey
                     subAccountIndex := r.subAccountIndex % 4294967296 } : Except KSErr Key))
      = Except.ok { id := r.id
                    address := PubkeyToAddress (publicKeyOf (ToECDSAUnsafe pt))
                    privateKey := some (ToECDSAUnsafe pt)
                    extendedKey := some ek
                    subAccountIndex := r.subAccountIndex % 4294967296 }
  rw [h3]

/-- Decrypt-after-encrypt on a full record: a well-formed in-memory key
(its address derived from its private key, both secret fields non-nil, index
in `uint32` range) is reconstituted exactly by `DecryptKey` from the record
`EncryptKey` produces, under the same passphrase. -/
theorem DecryptKey_EncryptKey (key : Key) (priv : Bytes) (ek : ExtendedKey)
    (auth : Bytes) (n p : Nat) (e : EncEntropy)
    (hpriv : key.privateKey = some priv)
    (haddr : key.address = PubkeyToAddress (publicKeyOf priv))
    (hek : key.extendedKey = some ek)
    (hidx : key.subAccountIndex < 4294967296) :
    ∃ r, EncryptKey key auth n p e = .ok r ∧
      r.subAccountIndex = key.subAccountIndex ∧
      DecryptKey (.v3 r) auth = .ok key := by
  refine ⟨_, EncryptKey_some key priv ek auth n p e hpriv hek, rfl, ?_⟩
  rw [DecryptKey_v3_ok _ auth priv (ExtendedKey.string ek) ek
    (decryptKeyV3_roundtrip priv auth e.salt1 e.iv1 n p _ rfl rfl)
    (decryptExtendedKey_roundtrip ek auth e.salt2 e.iv2 n p _ rfl rfl)
    (NewKeyFromString_string ek)]
  show Except.ok { id := key.id
                   address := PubkeyToAddress (publicKeyOf (ToECDSAUnsafe priv))
                   privateKey := some (ToECDSAUnsafe priv)
                   extendedKey := some ek
                   subAccountIndex := key.subAccountIndex % 4294967296 } = Except.ok key
  rw [Nat.mod_eq_of_lt hidx]
  cases key with
  | mk id address privateKey extendedKey subAccountIndex =>
      cases hpriv
      cases hek
      cases haddr
      rfl

/-- Every key a successful `DecryptKey` returns has a non-nil private key,
an address recomputed from it, a non-nil extended key, and a sub-account
index in `uint32` range. -/
theorem DecryptKey_shape (kj : KeyJSON) (auth : Bytes) (k : Key)
    (h : DecryptKey kj auth = .ok k) :
    ∃ priv ek, k.privateKey = some priv ∧
      k.address = PubkeyToAddress (publicKeyOf priv) ∧
      k.extendedKey = some ek ∧ k.subAccountIndex < 4294967296 := by
  cases kj with
  | v1 r =>
      rw [DecryptKey_v1_def] at h
      split at h
      · exact Except.noConfusion h
      · split at h
        · exact Except.noConfusion h
        · cases h
          refine ⟨_, _, rfl, rfl, rfl, ?_⟩
          show (0 : Nat) < 4294967296
          decide
  | v3 r =>
      rw [DecryptKey_v3_def] at h
      split at h
      · exact Except.noConfusion h
      · split at h
        · exact Except.noConfusion h
        · split at h
          · exact Except.noConfusion h
          · cases h
            exact ⟨_, _, rfl, rfl, rfl, Nat.mod_lt _ (by decide)⟩

/-! ## Lemmas about the keystore state machine -/

theorem lookupFile_setFile (files : List (Bytes × KeyJSON)) (path : Bytes) (r : KeyJSON) :
    lookupFile (setFile files path r) path = some r := by
  induction files with
  | nil => simp [setFile, lookupFile]
  | cons x rest ih =>
      by_cases h : x.1 = path
      · simp [setFile, lookupFile, h]
      · simp [setFile, lookupFile, h, ih]

theorem setFile_length_fresh (files : List (Bytes × KeyJSON)) (path : Bytes) (r : KeyJSON)
    (h : lookupFile files path = none) :
    (setFile files path r).length = files.length + 1 := by
  induction files with
  | nil => rfl
  | cons x rest ih =>
      by_cases hx : x.1 = path
      · rw [lookupFile] at h
        simp [hx] at h
      · rw [lookupFile] at h
        rw [if_neg hx] at h
        simp [setFile, hx, ih h]

theorem hasAddress_append_self (cache : List Account) (a : Account) :
    hasAddress (cache ++ [a]) a.address = true := by
  simp [hasAddress]

theorem cacheFind_append_fresh (cache : List Account) (a : Account)
    (h : hasAddress cache a.address = false) :
    cacheFind (cache ++ [a]) a.address = .ok a := by
  induction cache with
  | nil => simp [cacheFind, List.find?]
  | cons x xs ih =>
      rw [hasAddress, List.any_cons, Bool.or_eq_false_iff] at h
      have hx : ¬ x.address = a.address := by
        simpa using h.1
      rw [cacheFind, List.cons_append, List.find?_cons_of_neg _ (by simpa using hx)]
      exact ih h.2

theorem getKey_ok (st : KSState) (addr path auth : Bytes) (r : KeyJSON) (k : Key)
    (hf : lookupFile st.files path = some r) (hd : DecryptKey r auth = .ok k)
    (ha : k.address = addr) : getKey st addr path auth = .ok k := by
  unfold getKey
  rw [hf]
  show (match DecryptKey r auth with
    | Except.error e => Except.error e
    | Except.ok key =>
        if key.address = addr then (Except.ok key : Except KSErr Key)
        else Except.error KSErr.addressMismatch) = Except.ok k
  rw [hd]
  show (if k.address = addr then (Except.ok k : Except KSErr Key)
    else Except.error KSErr.addressMismatch) = Except.ok k
  rw [if_pos ha]

theorem getDecryptedKey_ok (st : KSState) (a a0 : Account) (auth : Bytes) (k : Key)
    (hfind : cacheFind st.cache a.address = .ok a0)
    (hkey : getKey st a0.address a0.path auth = .ok k) :
    getDecryptedKey st a auth = .ok (a0, k) := by
  unfold getDecryptedKey
  rw [hfind]
  show (match getKey st a0.address a0.path auth with
    | Except.error e => Except.error e
    | Except.ok key => (Except.ok (a0, key) : Except KSErr (Account × Key)))
      = Except.ok (a0, k)
  rw [hkey]

theorem StoreKey_ok (st : KSState) (path : Bytes) (key : Key) (auth : Bytes)
    (n p : Nat) (e : EncEntropy) (r : encryptedKeyJSONV3)
    (henc : EncryptKey key auth n p e = .ok r) :
    StoreKey st path key auth n p e =
      .ok { st with files := setFile st.files path (.v3 r) } := by
  unfold StoreKey
  rw [henc]

theorem IncSubAccountIndex_getKeyError (st : KSState) (a : Account) (auth : Bytes)
    (n p : Nat) (e : EncEntropy) (er : KSErr)
    (h : getDecryptedKey st a auth = .error er) :
    IncSubAccountIndex st a auth n p e = ⟨.error er, st, none⟩ := by
  unfold IncSubAccountIndex
  rw [h]

theorem IncSubAccountIndex_okCase (st : KSState) (a a0 : Account) (auth : Bytes)
    (n p : Nat) (e : EncEntropy) (k : Key) (st' : KSState)
    (hget : getDecryptedKey st a auth = .ok (a0, k))
    (hstore : StoreKey st a0.path
      { k with subAccountIndex := (k.subAccountIndex + 1) % 4294967296 } auth n p e = .ok st') :
    IncSubAccountIndex st a auth n p e = ⟨.ok (), st', k.privateKey⟩ := by
  unfold IncSubAccountIndex
  rw [hget]
  show (match StoreKey st a0.path
      { k with subAccountIndex := (k.subAccountIndex + 1) % 4294967296 } auth n p e with
    | Except.error er => (⟨Except.error er, st, k.privateKey⟩ : OpResult Unit)
    | Except.ok st' => ⟨Except.ok (), st', k.privateKey⟩) = ⟨Except.ok (), st', k.privateKey⟩
  rw [hstore]

/-- The sub-account index field of a persisted record (absent on legacy
records, i.e. 0). -/
def recordIndex : KeyJSON → Nat
  | .v1 _ => 0
  | .v3 r => r.subAccountIndex

/-- The persisted sub-account index of the record stored at `path`. -/
def persistedSubIndex (st : KSState) (path : Bytes) : Option Nat :=
  (lookupFile st.files path).map recordIndex

/-- Invariant threaded through sequential `IncSubAccountIndex` calls:
account `a` resolves in the cache to `a0`; the file at `a0.path` decrypts
under `auth` to a key with sub-account index `i` whose address matches
`a0.address`; and the persisted record's index field is also `i`. -/
def GoodState (st : KSState) (a a0 : Account) (auth : Bytes) (i : Nat) : Prop :=
  cacheFind st.cache a.address = .ok a0 ∧
  ∃ r k, lookupFile st.files a0.path = some r ∧
    DecryptKey r auth = .ok k ∧
    k.subAccountIndex = i ∧ k.address = a0.address ∧ recordIndex r = i

theorem IncSubAccountIndex_step (st : KSState) (a a0 : Account) (auth : Bytes)
    (n p : Nat) (e : EncEntropy) (i : Nat)
    (hg : GoodState st a a0 auth i) (hi : i + 1 < 4294967296) :
    (IncSubAccountIndex st a auth n p e).res = .ok () ∧
    GoodState (IncSubAccountIndex st a auth n p e).st a a0 auth (i + 1) := by
  obtain ⟨hfind, r, k, hfile, hdec, hidx, haddr, hrec⟩ := hg
  obtain ⟨priv, ek, hpriv, haddr', hekk, hlt⟩ := DecryptKey_shape r auth k hdec
  have hget : getDecryptedKey st a auth = .ok (a0, k) :=
    getDecryptedKey_ok st a a0 auth k hfind (getKey_ok st a0.address a0.path auth r k hfile hdec haddr)
  have hmod : (k.subAccountIndex + 1) % 4294967296 = i + 1 := by
    rw [hidx, Nat.mod_eq_of_lt hi]
  obtain ⟨r', henc, hrec', hdec'⟩ :=
    DecryptKey_EncryptKey { k with subAccountIndex := (k.subAccountIndex + 1) % 4294967296 }
      priv ek auth n p e hpriv haddr' hekk (by rw [hmod]; exact hi)
  have hstore := StoreKey_ok st a0.path
    { k with subAccountIndex := (k.subAccountIndex + 1) % 4294967296 } auth n p e r' henc
  have hres := IncSubAccountIndex_okCase st a a0 auth n p e k _ hget hstore
  rw [hres]
  refine ⟨rfl, hfind, .v3 r', _, lookupFile_setFile st.files a0.path (.v3 r'), hdec', ?_, ?_, ?_⟩
  · show (k.subAccountIndex + 1) % 4294967296 = i + 1
    exact hmod
  · exact haddr
  · show r'.subAccountIndex = i + 1
    rw [hrec']
    exact hmod

/-- The `N` sequential `IncSubAccountIndex` calls, threading the state and
recording whether every call succeeded. -/
def incN (a : Account) (auth : Bytes) (scryptN scryptP : Nat) :
    KSState → List EncEntropy → KSState × Bool
  | st, [] => (st, true)
  | st, e :: es =>
      let r := IncSubAccountIndex st a auth scryptN scryptP e
      let rest := incN a auth scryptN scryptP r.st es
      (rest.1, decide (r.res = Except.ok ()) && rest.2)

theorem incN_good (a a0 : Account) (auth : Bytes) (n p : Nat) (es : List EncEntropy)
    (st : KSState) (i : Nat)
    (hg : GoodState st a a0 auth i) (hiN : i + es.length < 4294967296) :
    (incN a auth n p st es).2 = true ∧
    GoodState (incN a auth n p st es).1 a a0 auth (i + es.length) := by
  induction es generalizing st i with
  | nil => simpa [incN] using hg
  | cons e es ih =>
      have h1 := IncSubAccountIndex_step st a a0 auth n p e i hg (by
        have := hiN
        simp only [List.length_cons] at this
        omega)
      have h2 := ih (IncSubAccountIndex st a auth n p e).st (i + 1) h1.2 (by
        simp only [List.length_cons] at hiN
        omega)
      constructor
      · simp [incN, h1.1, h2.1]
      · have : i + (e :: es).length = (i + 1) + es.length := by
          simp [List.length_cons]
          omega
        rw [this]
        simpa [incN] using h2.2

/-! ## Lemmas about derivation and import -/

/-- The BIP44-derived child of `k` at index `i` under the ETH coin type. -/
def bip44Derived (k : ExtendedKey) (i : Nat) : ExtendedKey :=
  childKey (childKey (childKey k (HardenedKeyStart + 44))
    (HardenedKeyStart + CoinTypeETH)) (HardenedKeyStart + i)

theorem BIP44Child_eq (k : ExtendedKey) (i : Nat) :
    k.BIP44Child CoinTypeETH i = .ok (bip44Derived k i) := rfl

/-- The key record `newKeyFromExtendedKey` builds, spelled out. -/
def mkDerivedKey (k : ExtendedKey) (id : Nat) : Key :=
  if k.depth = 0 then
    { id := id
      address := PubkeyToAddress (publicKeyOf (bip44Derived k 0).ToECDSA)
      privateKey := some (bip44Derived k 0).ToECDSA
      extendedKey := some (bip44Derived k 1)
      subAccountIndex := 0 }
  else
    { id := id
      address := PubkeyToAddress (publicKeyOf k.ToECDSA)
      privateKey := some k.ToECDSA
      extendedKey := some k
      subAccountIndex := 0 }

theorem newKeyFromExtendedKey_ok (k : ExtendedKey) (id : Nat) :
    newKeyFromExtendedKey k id = .ok (mkDerivedKey k id) := by
  unfold newKeyFromExtendedKey mkDerivedKey
  by_cases h : k.depth = 0
  · rw [if_pos h, if_pos h, BIP44Child_eq, BIP44Child_eq]
  · rw [if_neg h, if_neg h]

/-- The derived address does not depend on the drawn uuid. -/
theorem mkDerivedKey_address_id (k : ExtendedKey) (id id' : Nat) :
    (mkDerivedKey k id).address = (mkDerivedKey k id').address := by
  unfold mkDerivedKey
  by_cases h : k.depth = 0 <;> simp [h]

theorem mkDerivedKey_privateKey_some (k : ExtendedKey) (id : Nat) :
    (mkDerivedKey k id).privateKey =
      some (if k.depth = 0 then (bip44Derived k 0).ToECDSA else k.ToECDSA) := by
  unfold mkDerivedKey
  by_cases h : k.depth = 0 <;> simp [h]

theorem mkDerivedKey_wf (k : ExtendedKey) (id : Nat) :
    ∃ priv ek, (mkDerivedKey k id).privateKey = some priv ∧
      (mkDerivedKey k id).address = PubkeyToAddress (publicKeyOf priv) ∧
      (mkDerivedKey k id).extendedKey = some ek ∧
      (mkDerivedKey k id).subAccountIndex < 4294967296 := by
  unfold mkDerivedKey
  by_cases h : k.depth = 0 <;> simp [h]

theorem ImportExtendedKey_fresh (st : KSState) (reloaded : List Account)
    (K : ExtendedKey) (auth : Bytes) (id n p : Nat) (e : EncEntropy)
    (key : Key) (r : encryptedKeyJSONV3)
    (hkey : newKeyFromExtendedKey K id = .ok key)
    (hfresh : hasAddress st.cache key.address = false)
    (henc : EncryptKey key auth n p e = .ok r) :
    ImportExtendedKey st reloaded K auth id n p e =
      ⟨.ok ⟨key.address, keyFileName key.address⟩,
       { cache := st.cache ++ [⟨key.address, keyFileName key.address⟩]
         files := setFile st.files (keyFileName key.address) (.v3 r) },
       key.privateKey⟩ := by
  unfold ImportExtendedKey
  rw [hkey]
  show (if hasAddress st.cache key.address then _ else importKey st key auth n p e) = _
  rw [if_neg (by rw [hfresh]; exact Bool.false_ne_true)]
  unfold importKey
  show (match StoreKey st (keyFileName key.address) key auth n p e with
    | Except.error er => (⟨Except.error er, st, key.privateKey⟩ : OpResult Account)
    | Except.ok st' =>
        ⟨Except.ok ⟨key.address, keyFileName key.address⟩,
         { cache := st'.cache ++ [⟨key.address, keyFileName key.address⟩]
           files := st'.files },
         key.privateKey⟩)
      = (⟨.ok ⟨key.address, keyFileName key.address⟩,
          { cache := st.cache ++ [⟨key.address, keyFileName key.address⟩]
            files := setFile st.files (keyFileName key.address) (.v3 r) },
          key.privateKey⟩ : OpResult Account)
  rw [StoreKey_ok st (keyFileName key.address) key auth n p e r henc]

theorem ImportExtendedKey_cached (st : KSState) (reloaded : List Account)
    (K : ExtendedKey) (auth : Bytes) (id n p : Nat) (e : EncEntropy)
    (key : Key) (a : Account)
    (hkey : newKeyFromExtendedKey K id = .ok key)
    (hhas : hasAddress st.cache key.address = true)
    (hfind : cacheFind reloaded key.address = .ok a) :
    ImportExtendedKey st reloaded K auth id n p e =
      ⟨.ok a, { st with cache := reloaded }, key.privateKey⟩ := by
  unfold ImportExtendedKey
  rw [hkey]
  show (if hasAddress st.cache key.address then _ else importKey st key auth n p e) = _
  rw [if_pos hhas]
  show (match cacheFind reloaded key.address with
    | Except.error er =>
        (⟨Except.error er, { st with cache := reloaded }, zeroKey key.privateKey⟩ : OpResult Account)
    | Except.ok a => ⟨Except.ok a, { st with cache := reloaded }, key.privateKey⟩)
      = ⟨Except.ok a, { st with cache := reloaded }, key.privateKey⟩
  rw [hfind]

theorem ImportExtendedKey_cacheError (st : KSState) (reloaded : List Account)
    (K : ExtendedKey) (auth : Bytes) (id n p : Nat) (e : EncEntropy)
    (key : Key) (er : KSErr)
    (hkey : newKeyFromExtendedKey K id = .ok key)
    (hhas : hasAddress st.cache key.address = true)
    (hfind : cacheFind reloaded key.address = .error er) :
    ImportExtendedKey st reloaded K auth id n p e =
      ⟨.error er, { st with cache := reloaded }, zeroKey key.privateKey⟩ := by
  unfold ImportExtendedKey
  rw [hkey]
  show (if hasAddress st.cache key.address then _ else importKey st key auth n p e) = _
  rw [if_pos hhas]
  show (match cacheFind reloaded key.address with
    | Except.error er =>
        (⟨Except.error er, { st with cache := reloaded }, zeroKey key.privateKey⟩ : OpResult Account)
    | Except.ok a => ⟨Except.ok a, { st with cache := reloaded }, key.privateKey⟩)
      = ⟨Except.error er, { st with cache := reloaded }, zeroKey key.privateKey⟩
  rw [hfind]

theorem Update_okCase (st : KSState) (a a0 : Account) (auth newAuth : Bytes)
    (n p : Nat) (e : EncEntropy) (k : Key) (st' : KSState)
    (hget : getDecryptedKey st a auth = .ok (a0, k))
    (hstore : StoreKey st a0.path k newAuth n p e = .ok st') :
    Update st a auth newAuth n p e = ⟨.ok (), st', k.privateKey⟩ := by
  unfold Update
  rw [hget]
  show (match StoreKey st a0.path k newAuth n p e with
    | Except.error er => (⟨Except.error er, st, k.privateKey⟩ : OpResult Unit)
    | Except.ok st2 => ⟨Except.ok (), st2, k.privateKey⟩) = ⟨Except.ok (), st', k.privateKey⟩
  rw [hstore]

/-- The `DecryptKey` on a legacy record whose primary decryption succeeds:
the extended key is synthesized as the empty sentinel and the sub-account
index as 0. -/
theorem DecryptKey_v1_ok (r : encryptedKeyJSONV1) (auth kb : Bytes) (kid : Nat)
    (h : decryptKeyV1 r auth = .ok (kb, kid)) :
    DecryptKey (.v1 r) auth = .ok
      { id := kid
        address := PubkeyToAddress (publicKeyOf (ToECDSAUnsafe kb))
        privateKey := some (ToECDSAUnsafe kb)
        extendedKey := some ExtendedKey.empty
        subAccountIndex := 0 } := by
  rw [DecryptKey_v1_def, h]
  show (match NewKeyFromString EmptyExtendedKeyString with
    | Except.error e => Except.error e
    | Except.ok extKey =>
        (Except.ok { id := kid
                     address := PubkeyToAddress (publicKeyOf (ToECDSAUnsafe kb))
                     privateKey := some (ToECDSAUnsafe kb)
                     extendedKey := some extKey
                     subAccountIndex := 0 } : Except KSErr Key))
      = Except.ok { id := kid
                    address := PubkeyToAddress (publicKeyOf (ToECDSAUnsafe kb))
                    privateKey := some (ToECDSAUnsafe kb)
                    extendedKey := some ExtendedKey.empty
                    subAccountIndex := 0 }
  rw [show NewKeyFromString EmptyExtendedKeyString = Except.ok ExtendedKey.empty from rfl]

/-- Inversion: a successful legacy decryption always carries the empty
sentinel as its extended key. -/
theorem DecryptKey_v1_root (r : encryptedKeyJSONV1) (auth : Bytes) (k : Key)
    (h : DecryptKey (.v1 r) auth = .ok k) :
    k.extendedKey = some ExtendedKey.empty := by
  rw [DecryptKey_v1_def] at h
  split at h
  · exact Except.noConfusion h
  · split at h
    · exact Except.noConfusion h
    next extKey heq =>
      cases h
      have hk : extKey = ExtendedKey.empty := by
        rw [show NewKeyFromString EmptyExtendedKeyString = Except.ok ExtendedKey.empty from rfl] at heq
        exact (Except.ok.inj heq).symm
      show some extKey = some ExtendedKey.empty
      rw [hk]

/-- Inversion: a successful decryption of a current record with an empty
extended-key blob carries the empty sentinel as its extended key. -/
theorem DecryptKey_v3_empty_root (r : encryptedKeyJSONV3) (auth : Bytes) (k : Key)
    (hct : r.extendedKey.cipherText = [])
    (h : DecryptKey (.v3 r) auth = .ok k) :
    k.extendedKey = some ExtendedKey.empty := by
  have hdx : decryptExtendedKey r auth = .ok EmptyExtendedKeyString := by
    unfold decryptExtendedKey
    rw [hct]
    simp
  rw [DecryptKey_v3_def] at h
  split at h
  · exact Except.noConfusion h
  · split at h
    · exact Except.noConfusion h
    next extKeyBytes heq2 =>
      split at h
      · exact Except.noConfusion h
      next extKey heq3 =>
        cases h
        have hb : extKeyBytes = EmptyExtendedKeyString :=
          Except.ok.inj (heq2.symm.trans hdx)
        rw [hb, show NewKeyFromString EmptyExtendedKeyString = Except.ok ExtendedKey.empty from rfl] at heq3
        have hk : extKey = ExtendedKey.empty := (Except.ok.inj heq3).symm
        show some extKey = some ExtendedKey.empty
        rw [hk]

/-- Corrupted data produces the same `ErrDecrypt` as a wrong passphrase:
tampering with the stored MAC of a well-formed blob makes decryption under
the correct passphrase fail with `ErrDecrypt`. -/
theorem decryptExtendedKey_badmac (k : ExtendedKey) (auth salt iv : Bytes)
    (n p : Nat) (mac2 : Bytes) (r : encryptedKeyJSONV3) (hver : r.version = 3)
    (hext : r.extendedKey = mkBlobWithMac k.string salt iv n p mac2)
    (hne : mac2 ≠ (mkExtBlob k auth salt iv n p).mac) :
    decryptExtendedKey r auth = .error .errDecrypt := by
  unfold decryptExtendedKey
  rw [hext, hver]
  rw [if_neg (by
    simp only [mkBlobWithMac, ctrXorAux_length]
    intro hc
    exact ExtendedKey.string_ne_nil k (List.length_eq_zero.mp hc))]
  rw [if_neg (by simp [version])]
  rw [if_neg (by simp [mkBlobWithMac])]
  have hkdf : getKDFKey (mkBlobWithMac k.string salt iv n p mac2) auth =
      .ok (scryptKey auth salt n scryptR p scryptDKLen) := by
    simp [getKDFKey, mkBlobWithMac]
  rw [hkdf]
  have hmac : Keccak256 [listSlice (scryptKey auth salt n scryptR p scryptDKLen) 16 32,
      (mkBlobWithMac k.string salt iv n p mac2).cipherText]
      ≠ (mkBlobWithMac k.string salt iv n p mac2).mac := by
    rw [show scryptDKLen = 32 from rfl, scryptKey_32_slice]
    intro hcon
    exact hne (hcon.symm.trans rfl)
  show (if Keccak256 [listSlice (scryptKey auth salt n scryptR p scryptDKLen) 16 32,
        (mkBlobWithMac k.string salt iv n p mac2).cipherText]
        ≠ (mkBlobWithMac k.string salt iv n p mac2).mac
      then (Except.error KSErr.errDecrypt : Except KSErr Bytes)
      else aesCTRXOR ((scryptKey auth salt n scryptR p scryptDKLen).take 16)
        (mkBlobWithMac k.string salt iv n p mac2).cipherText
        (mkBlobWithMac k.string salt iv n p mac2).cipherParams.iv)
      = Except.error KSErr.errDecrypt
  rw [if_pos hmac]

/-! ## Concrete sample data for witnesses -/

/-- A sample master (depth-0) extended key. -/
def sampleMaster : ExtendedKey := ⟨[7], [8], 0, [], 0⟩

/-- A sample non-master (depth-1) extended key. -/
def sampleNonMaster : ExtendedKey := ⟨[7], [8], 1, [], 0⟩

/-- A sample well-formed in-memory key record. -/
def sampleKey : Key :=
  { id := 1
    address := PubkeyToAddress (publicKeyOf [5])
    privateKey := some [5]
    extendedKey := some ExtendedKey.empty
    subAccountIndex := 0 }

/-- Sample entropy (salts and IVs) for one encryption. -/
def sampleEntropy : EncEntropy := ⟨[], [], [], []⟩

/-- The persisted record `EncryptKey sampleKey [1] 2 1 sampleEntropy`
produces. -/
def sampleRecord : encryptedKeyJSONV3 :=
  { address := sampleKey.address
    crypto := mkBlob [5] [1] [] [] 2 1
    id := 1
    version := 3
    extendedKey := mkExtBlob ExtendedKey.empty [1] [] [] 2 1
    subAccountIndex := 0 }

/-- The account of `sampleKey`. -/
def sampleAccount : Account := ⟨sampleKey.address, sampleKey.address⟩

/-- A keystore state holding exactly `sampleKey`'s record. -/
def sampleState : KSState :=
  { cache := [sampleAccount], files := [(sampleAccount.path, .v3 sampleRecord)] }

theorem sampleRecord_decrypts : DecryptKey (.v3 sampleRecord) [1] = .ok sampleKey := by
  have h := DecryptKey_v3_ok sampleRecord [1] [5]
    (ExtendedKey.string ExtendedKey.empty) ExtendedKey.empty
    (decryptKeyV3_roundtrip [5] [1] [] [] 2 1 sampleRecord rfl rfl)
    (decryptExtendedKey_roundtrip ExtendedKey.empty [1] [] [] 2 1 sampleRecord rfl rfl)
    (NewKeyFromString_string ExtendedKey.empty)
  rw [h]
  rfl

theorem sample_getDecrypted :
    getDecryptedKey sampleState sampleAccount [1] = .ok (sampleAccount, sampleKey) :=
  getDecryptedKey_ok sampleState sampleAccount sampleAccount [1] sampleKey rfl
    (getKey_ok sampleState sampleAccount.address sampleAccount.path [1]
      (.v3 sampleRecord) sampleKey rfl sampleRecord_decrypts rfl)

/-- A sample well-formed legacy (version "1") record under passphrase `[4]`. -/
def sampleV1 : encryptedKeyJSONV1 :=
  { address := []
    crypto := { cipher := "aes-128-cbc"
                cipherText := [9]
                cipherParams := ⟨[]⟩
                kdf := "scrypt"
                kdfN := 2, kdfR := 8, kdfP := 1, kdfDKLen := 32
                salt := [3]
                mac := Keccak256 [listSlice (scryptKey [4] [3] 2 8 1 32) 16 32, [9]] }
    id := 11
    version := "1" }

/-- The plaintext `decryptKeyV1 sampleV1 [4]` recovers. -/
def sampleV1Plain : Bytes :=
  aesCBCDecrypt (listSlice (Keccak256 [(scryptKey [4] [3] 2 8 1 32).take 16]) 0 16) [9] []

theorem sampleV1_decryptsV1 : decryptKeyV1 sampleV1 [4] = .ok (sampleV1Plain, 11) := by
  unfold decryptKeyV1
  have hkdf : getKDFKey sampleV1.crypto [4] = .ok (scryptKey [4] [3] 2 8 1 32) := rfl
  rw [hkdf]
  show (if Keccak256 [listSlice (scryptKey [4] [3] 2 8 1 32) 16 32, sampleV1.crypto.cipherText]
        ≠ sampleV1.crypto.mac
      then (Except.error KSErr.errDecrypt : Except KSErr (Bytes × Nat))
      else .ok (aesCBCDecrypt
        (listSlice (Keccak256 [(scryptKey [4] [3] 2 8 1 32).take 16]) 0 16)
        sampleV1.crypto.cipherText sampleV1.crypto.cipherParams.iv, sampleV1.id))
      = .ok (sampleV1Plain, 11)
  rw [if_neg (by simp [sampleV1])]
  rfl

/-! ## The claims -/

/-- C1: Encrypt/decrypt round-trip: for every passphrase `P` and extended key
`K`, decrypting the blob produced by `EncryptExtendedKey(K, P)` (carried in a
current-version record) with the same passphrase `P` via `decryptExtendedKey`
yields exactly the serialized string of `K`:
`decrypt(encrypt(serialize(K), P), P) == serialize(K)`. -/
theorem claim_c1_roundtrip (K : ExtendedKey) (P salt iv : Bytes) (n p : Nat)
    (blob : cryptoJSON) (r : encryptedKeyJSONV3)
    (henc : EncryptExtendedKey (some K) P n p salt iv = .ok blob)
    (hver : r.version = 3) (hext : r.extendedKey = blob) :
    decryptExtendedKey r P = .ok K.string := by
  rw [EncryptExtendedKey_some] at henc
  cases henc
  exact decryptExtendedKey_roundtrip K P salt iv n p r hver hext

/-- Witness for C1 at a concrete key, passphrase, salt, IV and cost
parameters. -/
theorem claim_c1_roundtrip_witness :
    decryptExtendedKey
      { address := [], crypto := emptyCryptoJSON, id := 0, version := 3
        extendedKey := mkExtBlob sampleMaster [1] [2] [3] 2 1
        subAccountIndex := 0 } [1]
      = .ok sampleMaster.string :=
  claim_c1_roundtrip sampleMaster [1] [2] [3] 2 1 _ _
    (EncryptExtendedKey_some sampleMaster [1] [2] [3] 2 1) rfl rfl

/-- C2: a wrong passphrase never succeeds: decrypting a (non-empty) blob
produced under passphrase `P` with any passphrase `P2 ≠ P` fails with
`ErrDecrypt` (the AuthenticationError: the MAC recomputed from the
`P2`-derived key mismatches the stored MAC), the very same error produced
for corrupted data (second conjunct: a tampered MAC under the correct
passphrase), and no partial plaintext is returned (the result is a bare
error). -/
theorem claim_c2_wrong_passphrase (K : ExtendedKey) (P P2 salt iv : Bytes)
    (n p : Nat) (blob : cryptoJSON) (r r2 : encryptedKeyJSONV3) (mac2 : Bytes)
    (henc : EncryptExtendedKey (some K) P n p salt iv = .ok blob)
    (hver : r.version = 3) (hext : r.extendedKey = blob)
    (hne : P2 ≠ P)
    (hver2 : r2.version = 3)
    (hext2 : r2.extendedKey = mkBlobWithMac K.string salt iv n p mac2)
    (hmac2 : mac2 ≠ blob.mac) :
    decryptExtendedKey r P2 = .error .errDecrypt ∧
    decryptExtendedKey r2 P = .error .errDecrypt := by
  rw [EncryptExtendedKey_some] at henc
  cases henc
  exact ⟨decryptExtendedKey_wrong_pass K P P2 salt iv n p r hver hext hne,
    decryptExtendedKey_badmac K P salt iv n p mac2 r2 hver2 hext2 hmac2⟩

/-- Witness for C2: concrete wrong-passphrase and corrupted-MAC decryptions
both fail with `ErrDecrypt`. -/
theorem claim_c2_wrong_passphrase_witness :
    decryptExtendedKey
      { address := [], crypto := emptyCryptoJSON, id := 0, version := 3
        extendedKey := mkExtBlob sampleMaster [1] [2] [3] 2 1
        subAccountIndex := 0 } [9]
      = .error .errDecrypt ∧
    decryptExtendedKey
      { address := [], crypto := emptyCryptoJSON, id := 0, version := 3
        extendedKey := mkBlobWithMac sampleMaster.string [2] [3] 2 1 []
        subAccountIndex := 0 } [1]
      = .error .errDecrypt :=
  claim_c2_wrong_passphrase sampleMaster [1] [9] [2] [3] 2 1 _ _ _ []
    (EncryptExtendedKey_some sampleMaster [1] [2] [3] 2 1) rfl rfl
    (by decide) rfl rfl (by decide)

/-- C7: empty-key shortcut: encrypting the absent ("no key present")
extended key returns the empty blob immediately, with no cryptographic work
and no error; and for every passphrase, decrypting a record whose
extended-key blob has no ciphertext returns the empty-extended-key sentinel
string directly — for any passphrase and any version/cipher fields, i.e.
without checking the passphrase and without MAC verification. -/
theorem claim_c7_empty_shortcut (P : Bytes) (n p : Nat) (salt iv : Bytes)
    (r : encryptedKeyJSONV3) (hct : r.extendedKey.cipherText = []) :
    EncryptExtendedKey none P n p salt iv = .ok emptyCryptoJSON ∧
    decryptExtendedKey r P = .ok EmptyExtendedKeyString := by
  refine ⟨rfl, ?_⟩
  unfold decryptExtendedKey
  rw [hct]
  simp

/-- Witness for C7: a record with an empty extended-key blob but absurd
version and cipher fields still decrypts to the sentinel under an arbitrary
passphrase. -/
theorem claim_c7_empty_shortcut_witness :
    EncryptExtendedKey none [5] 2 1 [] [] = .ok emptyCryptoJSON ∧
    decryptExtendedKey
      { address := [], crypto := emptyCryptoJSON, id := 0, version := 99
        extendedKey := { emptyCryptoJSON with cipher := "rot13" }
        subAccountIndex := 0 } [5]
      = .ok EmptyExtendedKeyString :=
  claim_c7_empty_shortcut [5] 2 1 [] [] _ rfl

/-- C9: unsupported-format rejection: decrypting a non-empty extended-key
blob whose record-version tag is not the supported version (3), or whose
cipher identifier is not "aes-128-ctr", fails with an
UnsupportedFormatError (`versionNotSupported` / `cipherNotSupported`; the
version is checked first) instead of attempting decryption. -/
theorem claim_c9_unsupported_format (r : encryptedKeyJSONV3) (P : Bytes)
    (hct : r.extendedKey.cipherText ≠ [])
    (h : r.version ≠ 3 ∨ r.extendedKey.cipher ≠ "aes-128-ctr") :
    ∃ er, decryptExtendedKey r P = .error er ∧ er.isUnsupportedFormat = true := by
  unfold decryptExtendedKey
  rw [if_neg (by simpa [List.length_eq_zero] using hct)]
  by_cases hv : r.version = 3
  · rcases h with h | h
    · exact absurd hv h
    · rw [if_neg (by simp [version, hv]), if_pos h]
      exact ⟨_, rfl, rfl⟩
  · rw [if_pos (by simpa [version] using hv)]
    exact ⟨_, rfl, rfl⟩

/-- Witness for C9: a version-2 record with a non-empty blob is rejected as
unsupported. -/
theorem claim_c9_unsupported_format_witness :
    ∃ er, decryptExtendedKey
      { address := [], crypto := emptyCryptoJSON, id := 0, version := 2
        extendedKey := { emptyCryptoJSON with cipherText := [1] }
        subAccountIndex := 0 } [5] = .error er ∧
      er.isUnsupportedFormat = true :=
  claim_c9_unsupported_format _ [5] (by decide) (.inl (by decide))

/-- C3: master vs. non-master derivation: for every master key of depth 0,
`newKeyFromExtendedKey` performs hardened BIP44 child derivation under the
fixed ETH coin type at child index 0 (the account key, which becomes the
private key and the address) and child index 1 (the sub-account root, which
becomes the stored extended key), and the two derived keys are distinct; for
every key of depth ≠ 0, no derivation is attempted and both outputs are the
input key itself. -/
theorem claim_c3_master_derivation (k : ExtendedKey) (id : Nat) :
    (k.depth = 0 →
      ∃ c1 c2, k.BIP44Child CoinTypeETH 0 = .ok c1 ∧
        k.BIP44Child CoinTypeETH 1 = .ok c2 ∧ c1 ≠ c2 ∧
        newKeyFromExtendedKey k id = .ok
          { id := id
            address := PubkeyToAddress (publicKeyOf c1.ToECDSA)
            privateKey := some c1.ToECDSA
            extendedKey := some c2
            subAccountIndex := 0 }) ∧
    (k.depth ≠ 0 →
      newKeyFromExtendedKey k id = .ok
        { id := id
          address := PubkeyToAddress (publicKeyOf k.ToECDSA)
          privateKey := some k.ToECDSA
          extendedKey := some k
          subAccountIndex := 0 }) := by
  constructor
  · intro h
    refine ⟨bip44Derived k 0, bip44Derived k 1, rfl, rfl, ?_, ?_⟩
    · exact BIP44Child_ne k CoinTypeETH 0 1 (by decide) rfl rfl
    · rw [newKeyFromExtendedKey_ok]
      unfold mkDerivedKey
      rw [if_pos h]
  · intro h
    rw [newKeyFromExtendedKey_ok]
    unfold mkDerivedKey
    rw [if_neg h]

/-- Witness for C3 at a concrete depth-0 master key and a concrete depth-1
non-master key. -/
theorem claim_c3_master_derivation_witness :
    (∃ c1 c2, sampleMaster.BIP44Child CoinTypeETH 0 = .ok c1 ∧
      sampleMaster.BIP44Child CoinTypeETH 1 = .ok c2 ∧ c1 ≠ c2 ∧
      newKeyFromExtendedKey sampleMaster 5 = .ok
        { id := 5
          address := PubkeyToAddress (publicKeyOf c1.ToECDSA)
          privateKey := some c1.ToECDSA
          extendedKey := some c2
          subAccountIndex := 0 }) ∧
    newKeyFromExtendedKey sampleNonMaster 5 = .ok
      { id := 5
        address := PubkeyToAddress (publicKeyOf sampleNonMaster.ToECDSA)
        privateKey := some sampleNonMaster.ToECDSA
        extendedKey := some sampleNonMaster
        subAccountIndex := 0 } :=
  ⟨(claim_c3_master_derivation sampleMaster 5).1 rfl,
   (claim_c3_master_derivation sampleNonMaster 5).2 (by decide)⟩

/-- C6: legacy compatibility: decrypting a well-formed legacy (version "1")
record succeeds by decrypting only the primary key, and yields a key record
whose extended key is the empty sentinel and whose sub-account index is 0. -/
theorem claim_c6_legacy (r : encryptedKeyJSONV1) (auth kb : Bytes) (kid : Nat)
    (h : decryptKeyV1 r auth = .ok (kb, kid)) :
    DecryptKey (.v1 r) auth = .ok
      { id := kid
        address := PubkeyToAddress (publicKeyOf (ToECDSAUnsafe kb))
        privateKey := some (ToECDSAUnsafe kb)
        extendedKey := some ExtendedKey.empty
        subAccountIndex := 0 } :=
  DecryptKey_v1_ok r auth kb kid h

/-- Witness for C6: a concrete well-formed legacy record decrypts to the
sentinel root and index 0. -/
theorem claim_c6_legacy_witness :
    DecryptKey (.v1 sampleV1) [4] = .ok
      { id := 11
        address := PubkeyToAddress (publicKeyOf (ToECDSAUnsafe sampleV1Plain))
        privateKey := some (ToECDSAUnsafe sampleV1Plain)
        extendedKey := some ExtendedKey.empty
        subAccountIndex := 0 } :=
  claim_c6_legacy sampleV1 [4] sampleV1Plain 11 sampleV1_decryptsV1

/-- C10 (implicit invariant): every successful `DecryptKey` returns a key
record whose extended key is non-nil — it is either the decrypted derivation
root or the empty sentinel; legacy records and current records with an empty
extended-key blob both yield the sentinel, never an absent field. -/
theorem claim_c10_nonnull_root (kj : KeyJSON) (auth : Bytes) (k : Key)
    (h : DecryptKey kj auth = .ok k) :
    (∃ ek, k.extendedKey = some ek) ∧
    (∀ r, kj = .v1 r → k.extendedKey = some ExtendedKey.empty) ∧
    (∀ r, kj = .v3 r → r.extendedKey.cipherText = [] →
      k.extendedKey = some ExtendedKey.empty) := by
  refine ⟨?_, ?_, ?_⟩
  · obtain ⟨priv, ek, _, _, hek, _⟩ := DecryptKey_shape kj auth k h
    exact ⟨ek, hek⟩
  · intro r hr
    subst hr
    exact DecryptKey_v1_root r auth k h
  · intro r hr hct
    subst hr
    exact DecryptKey_v3_empty_root r auth k hct h

/-- Witness for C10 at a concrete legacy record. -/
theorem claim_c10_nonnull_root_witness :
    (∃ ek, (Key.extendedKey
      { id := 11
        address := PubkeyToAddress (publicKeyOf (ToECDSAUnsafe sampleV1Plain))
        privateKey := some (ToECDSAUnsafe sampleV1Plain)
        extendedKey := some ExtendedKey.empty
        subAccountIndex := 0 }) = some ek) ∧
    (∀ r, KeyJSON.v1 sampleV1 = .v1 r → (Key.extendedKey
      { id := 11
        address := PubkeyToAddress (publicKeyOf (ToECDSAUnsafe sampleV1Plain))
        privateKey := some (ToECDSAUnsafe sampleV1Plain)
        extendedKey := some ExtendedKey.empty
        subAccountIndex := 0 }) = some ExtendedKey.empty) ∧
    (∀ r, KeyJSON.v1 sampleV1 = .v3 r → r.extendedKey.cipherText = [] →
      (Key.extendedKey
      { id := 11
        address := PubkeyToAddress (publicKeyOf (ToECDSAUnsafe sampleV1Plain))
        privateKey := some (ToECDSAUnsafe sampleV1Plain)
        extendedKey := some ExtendedKey.empty
        subAccountIndex := 0 }) = some ExtendedKey.empty) :=
  claim_c10_nonnull_root (.v1 sampleV1) [4] _
    (DecryptKey_v1_ok sampleV1 [4] sampleV1Plain 11 sampleV1_decryptsV1)

/-- C4: `IncSubAccountIndex`: if decrypting the persisted record for the
account fails, the operation fails with that error and mutates nothing (the
state is unchanged); if it succeeds, the sub-account index is incremented by
exactly one and the full record re-persisted, so `N` sequential serialized
calls on one account (threaded by `incN`) all succeed and increase the
persisted `subAccountIndex` by exactly `N` (stated below the `uint32`
bound). -/
theorem claim_c4_inc_sub_account_index (st : KSState) (a a0 : Account)
    (auth : Bytes) (n p : Nat) (e : EncEntropy) (es : List EncEntropy) (i : Nat) :
    (∀ er, getDecryptedKey st a auth = .error er →
      IncSubAccountIndex st a auth n p e = ⟨.error er, st, none⟩) ∧
    (GoodState st a a0 auth i → i + es.length < 4294967296 →
      (incN a auth n p st es).2 = true ∧
      persistedSubIndex (incN a auth n p st es).1 a0.path = some (i + es.length)) := by
  constructor
  · intro er h
    exact IncSubAccountIndex_getKeyError st a auth n p e er h
  · intro hg hlt
    obtain ⟨hok, hfind, r, k, hfile, hdec, hidx, haddr, hrec⟩ :=
      incN_good a a0 auth n p es st i hg hlt
    refine ⟨hok, ?_⟩
    unfold persistedSubIndex
    rw [hfile]
    simp [hrec]

/-- Witness for C4: on a concrete one-account store, a failing call (wrong
account) mutates nothing, and one successful call moves the persisted index
from 0 to 1. -/
theorem claim_c4_inc_sub_account_index_witness :
    IncSubAccountIndex sampleState ⟨[], []⟩ [1] 2 1 sampleEntropy
      = ⟨.error .noKey, sampleState, none⟩ ∧
    (incN sampleAccount [1] 2 1 sampleState [sampleEntropy]).2 = true ∧
    persistedSubIndex (incN sampleAccount [1] 2 1 sampleState [sampleEntropy]).1
      sampleAccount.path = some 1 := by
  have hg : GoodState sampleState sampleAccount sampleAccount [1] 0 :=
    ⟨rfl, .v3 sampleRecord, sampleKey, rfl, sampleRecord_decrypts, rfl, rfl, rfl⟩
  refine ⟨(claim_c4_inc_sub_account_index sampleState ⟨[], []⟩ sampleAccount
      [1] 2 1 sampleEntropy [] 0).1 .noKey rfl, ?_⟩
  have h := (claim_c4_inc_sub_account_index sampleState sampleAccount sampleAccount
    [1] 2 1 sampleEntropy [sampleEntropy] 0).2 hg (by decide)
  simpa using h

/-- C5: idempotent import: importing the same extended key twice with the
same passphrase (sequentially, with the cache reload seeing the current
cache) returns the same account both times and creates exactly one persisted
record — the second call leaves the state unchanged; when the derived
address is already cached, the existing account is returned as a success;
and on a cache-lookup failure the freshly derived secret is scrubbed
(`zeroKey`) and the error is propagated. -/
theorem claim_c5_idempotent_import (st : KSState) (K : ExtendedKey)
    (auth : Bytes) (id1 id2 n p : Nat) (e1 e2 : EncEntropy) (key : Key)
    (r : encryptedKeyJSONV3) (R1 R2 : OpResult Account)
    (hkey : newKeyFromExtendedKey K id1 = .ok key)
    (hfresh : hasAddress st.cache key.address = false)
    (hnof : lookupFile st.files (keyFileName key.address) = none)
    (henc : EncryptKey key auth n p e1 = .ok r)
    (hR1 : R1 = ImportExtendedKey st st.cache K auth id1 n p e1)
    (hR2 : R2 = ImportExtendedKey R1.st R1.st.cache K auth id2 n p e2) :
    (∃ a, R1.res = .ok a ∧ R2.res = .ok a) ∧
    R2.st = R1.st ∧
    R1.st.files.length = st.files.length + 1 ∧
    (∀ reloaded er key2, newKeyFromExtendedKey K id2 = .ok key2 →
      cacheFind reloaded key2.address = .error er →
      (ImportExtendedKey R1.st reloaded K auth id2 n p e2).res = .error er ∧
      (ImportExtendedKey R1.st reloaded K auth id2 n p e2).keyTrace
        = zeroKey key2.privateKey) := by
  have hkey1 : key = mkDerivedKey K id1 := by
    rw [newKeyFromExtendedKey_ok] at hkey
    exact (Except.ok.inj hkey).symm
  have hkey2 : newKeyFromExtendedKey K id2 = .ok (mkDerivedKey K id2) :=
    newKeyFromExtendedKey_ok K id2
  have haddr2 : (mkDerivedKey K id2).address = key.address := by
    rw [hkey1]
    exact mkDerivedKey_address_id K id2 id1
  have h1 : R1 = ⟨.ok ⟨key.address, keyFileName key.address⟩,
      { cache := st.cache ++ [⟨key.address, keyFileName key.address⟩]
        files := setFile st.files (keyFileName key.address) (.v3 r) },
      key.privateKey⟩ := by
    rw [hR1]
    exact ImportExtendedKey_fresh st st.cache K auth id1 n p e1 key r hkey hfresh henc
  have hhas2 : hasAddress R1.st.cache (mkDerivedKey K id2).address = true := by
    rw [h1, haddr2]
    exact hasAddress_append_self st.cache ⟨key.address, keyFileName key.address⟩
  have hfind2 : cacheFind R1.st.cache (mkDerivedKey K id2).address
      = .ok ⟨key.address, keyFileName key.address⟩ := by
    rw [h1, haddr2]
    exact cacheFind_append_fresh st.cache ⟨key.address, keyFileName key.address⟩ hfresh
  have h2 : R2 = ⟨.ok ⟨key.address, keyFileName key.address⟩,
      { R1.st with cache := R1.st.cache }, (mkDerivedKey K id2).privateKey⟩ := by
    rw [hR2]
    exact ImportExtendedKey_cached R1.st R1.st.cache K auth id2 n p e2
      (mkDerivedKey K id2) ⟨key.address, keyFileName key.address⟩ hkey2 hhas2 hfind2
  refine ⟨⟨⟨key.address, keyFileName key.address⟩, by rw [h1], by rw [h2]⟩, ?_, ?_, ?_⟩
  · rw [h2]
  · rw [h1]
    exact setFile_length_fresh st.files (keyFileName key.address) (.v3 r) hnof
  · intro reloaded er key2 hk2 hferr
    have hk2' : key2 = mkDerivedKey K id2 := by
      rw [newKeyFromExtendedKey_ok] at hk2
      exact (Except.ok.inj hk2).symm
    have hhas2' : hasAddress R1.st.cache key2.address = true := by
      rw [hk2']
      exact hhas2
    have := ImportExtendedKey_cacheError R1.st reloaded K auth id2 n p e2 key2 er hk2 hhas2' hferr
    rw [this]
    exact ⟨rfl, rfl⟩

/-- Witness for C5: importing a concrete master key twice into an empty
keystore returns the same account twice. -/
theorem claim_c5_idempotent_import_witness :
    ∃ a, (ImportExtendedKey ⟨[], []⟩ [] sampleMaster [1] 0 2 1 sampleEntropy).res = .ok a ∧
      (ImportExtendedKey (ImportExtendedKey ⟨[], []⟩ [] sampleMaster [1] 0 2 1 sampleEntropy).st
        (ImportExtendedKey ⟨[], []⟩ [] sampleMaster [1] 0 2 1 sampleEntropy).st.cache
        sampleMaster [1] 1 2 1 sampleEntropy).res = .ok a :=
  (claim_c5_idempotent_import ⟨[], []⟩ sampleMaster [1] 0 1 2 1 sampleEntropy sampleEntropy
    (mkDerivedKey sampleMaster 0) _ _ _
    (newKeyFromExtendedKey_ok sampleMaster 0) rfl rfl
    (EncryptKey_some (mkDerivedKey sampleMaster 0) _ _ [1] 2 1 sampleEntropy rfl rfl)
    rfl rfl).1

/-- Counterexample to C8 as stated: a successful `IncSubAccountIndex` call
returns with the decrypted private-key buffer `some [5]` — not zeroed — so
not every vault operation zeroes the secret on every exit path. -/
theorem claim_c8_counterexample :
    (IncSubAccountIndex sampleState sampleAccount [1] 2 1 sampleEntropy).res = .ok () ∧
    (IncSubAccountIndex sampleState sampleAccount [1] 2 1 sampleEntropy).keyTrace = some [5] ∧
    some ([5] : Bytes) ≠ zeroKey (some [5]) := by
  have hstore := StoreKey_ok sampleState sampleAccount.path
    { sampleKey with subAccountIndex := (sampleKey.subAccountIndex + 1) % 4294967296 }
    [1] 2 1 sampleEntropy _
    (EncryptKey_some
      { sampleKey with subAccountIndex := (sampleKey.subAccountIndex + 1) % 4294967296 }
      [5] ExtendedKey.empty [1] 2 1 sampleEntropy rfl rfl)
  have h := IncSubAccountIndex_okCase sampleState sampleAccount sampleAccount [1] 2 1
    sampleEntropy sampleKey _ sample_getDecrypted hstore
  rw [h]
  refine ⟨rfl, rfl, ?_⟩
  decide

/-- C8 amended: zeroing a nil/absent key is a no-op, not an error, and
`ImportExtendedKey` zeroes the freshly derived secret on its cache-lookup
failure exit; but the secret is not zeroed on the success exits of
`ImportExtendedKey` (cache hit and fresh import), and `IncSubAccountIndex`
and `Update` (passphrase rotation) leave the decrypted private key unzeroed
on their success exits. -/
theorem claim_c8_memory_hygiene (st : KSState) (reloaded : List Account)
    (K : ExtendedKey) (auth newAuth : Bytes) (id n p : Nat) (e : EncEntropy)
    (a a0 : Account) (k key : Key) (er : KSErr) (st1 st2 : KSState)
    (r : encryptedKeyJSONV3) :
    zeroKey none = none ∧
    (newKeyFromExtendedKey K id = .ok key →
      hasAddress st.cache key.address = true →
      cacheFind reloaded key.address = .error er →
      (ImportExtendedKey st reloaded K auth id n p e).keyTrace = zeroKey key.privateKey) ∧
    (newKeyFromExtendedKey K id = .ok key →
      hasAddress st.cache key.address = true →
      cacheFind reloaded key.address = .ok a →
      (ImportExtendedKey st reloaded K auth id n p e).keyTrace = key.privateKey) ∧
    (newKeyFromExtendedKey K id = .ok key →
      hasAddress st.cache key.address = false →
      EncryptKey key auth n p e = .ok r →
      (ImportExtendedKey st reloaded K auth id n p e).keyTrace = key.privateKey) ∧
    (getDecryptedKey st a auth = .ok (a0, k) →
      StoreKey st a0.path
        { k with subAccountIndex := (k.subAccountIndex + 1) % 4294967296 } auth n p e = .ok st1 →
      (IncSubAccountIndex st a auth n p e).keyTrace = k.privateKey) ∧
    (getDecryptedKey st a auth = .ok (a0, k) →
      StoreKey st a0.path k newAuth n p e = .ok st2 →
      (Update st a auth newAuth n p e).keyTrace = k.privateKey) := by
  refine ⟨rfl, ?_, ?_, ?_, ?_, ?_⟩
  · intro h1 h2 h3
    rw [ImportExtendedKey_cacheError st reloaded K auth id n p e key er h1 h2 h3]
  · intro h1 h2 h3
    rw [ImportExtendedKey_cached st reloaded K auth id n p e key a h1 h2 h3]
  · intro h1 h2 h3
    rw [ImportExtendedKey_fresh st reloaded K auth id n p e key r h1 h2 h3]
  · intro h1 h2
    rw [IncSubAccountIndex_okCase st a a0 auth n p e k st1 h1 h2]
  · intro h1 h2
    rw [Update_okCase st a a0 auth newAuth n p e k st2 h1 h2]

/-- Witness for C8 amended, at concrete states: the nil no-op, a zeroed
trace on a cache-lookup failure, and unzeroed traces for a successful
increment and a successful passphrase rotation. -/
theorem claim_c8_memory_hygiene_witness :
    zeroKey none = none ∧
    (ImportExtendedKey ⟨[⟨(mkDerivedKey sampleMaster 0).address, []⟩], []⟩ []
      sampleMaster [1] 0 2 1 sampleEntropy).keyTrace
      = zeroKey (mkDerivedKey sampleMaster 0).privateKey ∧
    (IncSubAccountIndex sampleState sampleAccount [1] 2 1 sampleEntropy).keyTrace
      = sampleKey.privateKey ∧
    (Update sampleState sampleAccount [1] [2] 2 1 sampleEntropy).keyTrace
      = sampleKey.privateKey := by
  refine ⟨(claim_c8_memory_hygiene ⟨[], []⟩ [] sampleMaster [1] [2] 0 2 1 sampleEntropy
      sampleAccount sampleAccount sampleKey sampleKey .noKey sampleState sampleState
      sampleRecord).1, ?_, ?_, ?_⟩
  · exact (claim_c8_memory_hygiene ⟨[⟨(mkDerivedKey sampleMaster 0).address, []⟩], []⟩ []
      sampleMaster [1] [2] 0 2 1 sampleEntropy sampleAccount sampleAccount sampleKey
      (mkDerivedKey sampleMaster 0) .noKey sampleState sampleState sampleRecord).2.1
      (newKeyFromExtendedKey_ok sampleMaster 0) (by decide) rfl
  · exact (claim_c8_memory_hygiene sampleState [] sampleMaster [1] [2] 0 2 1 sampleEntropy
      sampleAccount sampleAccount sampleKey sampleKey .noKey _ sampleState sampleRecord).2.2.2.2.1
      sample_getDecrypted
      (StoreKey_ok sampleState sampleAccount.path
        { sampleKey with subAccountIndex := (sampleKey.subAccountIndex + 1) % 4294967296 }
        [1] 2 1 sampleEntropy _
        (EncryptKey_some
          { sampleKey with subAccountIndex := (sampleKey.subAccountIndex + 1) % 4294967296 }
          [5] ExtendedKey.empty [1] 2 1 sampleEntropy rfl rfl))
  · exact (claim_c8_memory_hygiene sampleState [] sampleMaster [1] [2] 0 2 1 sampleEntropy
      sampleAccount sampleAccount sampleKey sampleKey .noKey sampleState _ sampleRecord).2.2.2.2.2
      sample_getDecrypted
      (StoreKey_ok sampleState sampleAccount.path sampleKey [2] 2 1 sampleEntropy _
        (EncryptKey_some sampleKey [5] ExtendedKey.empty [2] 2 1 sampleEntropy rfl rfl))

end StatusKeystore
